import Mathlib

/-!
# bkptool: the snapshot store (`internal/backup/manager.go`)

A shallow embedding of the backup store and proofs of its contract.

Modelling decisions, all stated here once:

* Go `string` values (paths, ids, keys) are Lean `String`s, bytes are naturals
  below 256, Go `int`/`int64` values are `Int` (no operation of the store can
  overflow: the only subtraction is `len(history) - 1 - index` with
  `index >= 0`).
* The file system is explicit state (`World`): a map from path to node
  (regular file with content and mode, or directory), read and write fault
  oracles standing for every reason an open or a directory creation can fail
  (a file in the way of a parent directory, a read-only device, a directory
  without search or write permission), whether the process is the superuser,
  the process umask, the wall clock as the sequence of its readings, and the
  log of external `diff` runs. Paths name nodes as strings; links are not
  modelled. The process owns the regular files it opens: an existing file
  opens for writing when no fault is set for its path and its own mode has the
  owner-write bit, or the process is the superuser. Opening for reading is
  governed by the read fault oracle alone.
* The index directory is a typed map from index-file path to the decoded state
  of that file (`IndexFile`): `encoding/json` is taken as a faithful round trip
  on `[]Entry` (which it is for paths that are valid UTF-8), and index files
  are taken as distinct from source and snapshot files.
* Library functions whose tables or environment are not part of the repository
  are fields of `Lib`: `filepath.Abs`, `filepath.Clean`, `filepath.Dir`,
  `sha256.Sum256`, `unicode.ToLower` and the external `diff` process.
* `filepath.Join` of the store root with the fixed components used by the store
  is concatenation with the separator: the root built by `NewStore` is clean
  and the joined components contain neither separators nor dot components.
* Failures are modelled where a file or directory is opened or created; a
  write, a `Sync` or a JSON encoding that fails after a successful open is not.
  One `Read` of a regular file fills the buffer as far as the file reaches.
* Every operation returns its result together with the world it leaves behind,
  also when it fails.
-/

namespace Bkptool

/-! ## Data model -/

/-- File content: a byte string, each byte a natural below 256. -/
abbrev Bytes := List Nat

/-- The `Entry` struct: one snapshot of one file. `CreatedAt` is the instant in
nanoseconds. -/
structure Entry where
  ID : String
  SourcePath : String
  SnapshotPath : String
  CreatedAt : Int
  SizeBytes : Int
  Mode : Nat
deriving DecidableEq, Repr

/-- The errors the store returns. `noBackups` is the sentinel `ErrNoBackups`; every
other constructor is one `fmt.Errorf` site of `manager.go`; `indexPanic` is the
runtime panic of an out-of-range slice index. -/
inductive Err where
  | noBackups
  | resolvePath
  | statTarget
  | directoryTarget (resolved : String)
  | readIndex
  | decodeIndex
  | createSnapshotDir
  | createSnapshot
  | restoreFile
  | writeIndex
  | indexNegative
  | indexOutOfRange (index latest : Int)
  | runDiff
  | indexPanic
deriving DecidableEq, Repr

/-- A node of the file system: a regular file or a directory. -/
inductive Node where
  | file (content : Bytes) (mode : Nat)
  | dir
deriving DecidableEq, Repr

/-- What `os.ReadFile` followed by `json.Unmarshal` finds at an index path. -/
inductive IndexFile where
  | absent
  | unreadable
  | corrupt
  | entries (history : List Entry)
deriving DecidableEq, Repr

/-- The state the store runs against. -/
@[ext]
structure World where
  nodes : String → Option Node
  index : String → IndexFile
  denyRead : String → Bool
  denyWrite : String → Bool
  superuser : Bool
  umask : Nat
  clock : Nat → Int
  tick : Nat
  execs : List (String × String)

/-- How the external `diff` process ended: it ran and exited with a code, having
written `output`, or it could not be run at all. -/
inductive ExecOutcome where
  | exited (code : Int) (output : String)
  | failed
deriving DecidableEq, Repr

/-- Library functions the store calls. -/
structure Lib where
  abs : String → Option String
  clean : String → String
  dir : String → String
  sum256 : String → List Nat
  unicodeToLower : Char → Char
  execDiff : World → String → String → ExecOutcome

/-- The `Store` struct. -/
structure Store where
  root : String

/-! ## Path key resolver -/

/-- The ASCII branch of `strings.ToLower`: `c += 'a' - 'A'` for `'A' <= c <= 'Z'`. -/
def asciiLower (c : Char) : Char :=
  if 65 ≤ c.toNat ∧ c.toNat ≤ 90 then Char.ofNat (c.toNat + 32) else c

/-- `strings.ToLower`: the ASCII fast path when every byte is below `utf8.RuneSelf`,
otherwise `unicode.ToLower` on every rune. -/
def ToLower (lib : Lib) (s : String) : String :=
  if s.data.all (fun c => decide (c.toNat < 128)) then String.mk (s.data.map asciiLower)
  else String.mk (s.data.map lib.unicodeToLower)

/-- The constant `hextable` of `encoding/hex`. -/
def hextable : List Char :=
  ['0', '1', '2', '3', '4', '5', '6', '7', '8', '9', 'a', 'b', 'c', 'd', 'e', 'f']

/-- `hex.Encode`: two digits per byte, `hextable[v>>4]` then `hextable[v&0x0f]`. -/
def hexEncode : List Nat → List Char
  | [] => []
  | v :: vs => hextable.getD (v / 16) '0' :: hextable.getD (v % 16) '0' :: hexEncode vs

/-- `sourceKey`: hex of the SHA-256 of the lower-cased path. -/
def sourceKey (lib : Lib) (path : String) : String :=
  String.mk (hexEncode (lib.sum256 (ToLower lib path)))

/-! ## Store layout -/

/-- `filepath.Join(s.root, "index", key+".json")`. -/
def indexPath (s : Store) (key : String) : String :=
  s.root ++ "/index/" ++ key ++ ".json"

/-- `filepath.Join(s.root, "snapshots", key)`. -/
def snapshotDir (s : Store) (key : String) : String :=
  s.root ++ "/snapshots/" ++ key

/-- `filepath.Join(snapshotDir, id+".bak")`. -/
def snapshotPath (s : Store) (key id : String) : String :=
  snapshotDir s key ++ "/" ++ id ++ ".bak"

/-- `fmt.Sprintf("%d", n)`. -/
def fmtInt (n : Int) : String := toString n

/-! ## File-system primitives -/

/-- Replace the node at one path. -/
def World.setNode (w : World) (p : String) (n : Node) : World :=
  { w with nodes := Function.update w.nodes p (some n) }

/-- Replace the decoded content of one index file. -/
def World.setIndex (w : World) (p : String) (history : List Entry) : World :=
  { w with index := Function.update w.index p (IndexFile.entries history) }

/-- One reading of `time.Now()`: the clock advances. -/
def World.advance (w : World) : World :=
  { w with tick := w.tick + 1 }

/-- The bits `ModeSetuid | ModeSetgid | ModeSticky` of `os.FileMode`. -/
def modeFlags : Nat := 2 ^ 23 + 2 ^ 22 + 2 ^ 20

/-- The mode a file created by `os.OpenFile(_, O_CREATE|_, perm)` gets: of `perm`
only the nine permission bits, cut by the umask, and the setuid, setgid and sticky
flags are passed on (`syscallMode`); every other bit of `perm` is dropped. -/
def applyUmask (umask perm : Nat) : Nat :=
  Nat.lor (Nat.land (Nat.land perm 0o777) (Nat.xor 0o777 (Nat.land umask 0o777)))
    (Nat.land perm modeFlags)

/-- The owner-write bit of a mode. -/
def ownerWritable (mode : Nat) : Bool :=
  Nat.land mode 0o200 != 0

/-- `os.MkdirAll(d, 0o755)`: nothing to do for an existing directory, an error when
a file is in the way or the directory cannot be created; `true` is a nil error. -/
def mkdirAll (w : World) (d : String) : Bool × World :=
  match w.nodes d with
  | some Node.dir => (true, w)
  | some (Node.file _ _) => (false, w)
  | none => if w.denyWrite d then (false, w) else (true, w.setNode d Node.dir)

/-- `os.OpenFile(dst, O_CREATE|O_WRONLY|O_TRUNC, mode)`: an existing file opens
only when its own mode lets the process write (the owner-write bit, or the
superuser), is truncated and keeps its mode; a missing file is created with
`mode` as `applyUmask` cuts it; the result is the mode of the open file and the
world, `none` an error. -/
def openTrunc (w : World) (dst : String) (mode : Nat) : Option (Nat × World) :=
  if w.denyWrite dst then none else
  match w.nodes dst with
  | some Node.dir => none
  | some (Node.file _ old) =>
    if w.superuser || ownerWritable old then some (old, w.setNode dst (Node.file [] old))
    else none
  | none => some (applyUmask w.umask mode, w.setNode dst (Node.file [] (applyUmask w.umask mode)))

/-- `copyFile(src, dst, mode)`: open `src`, make the parent of `dst`, open `dst`,
then `io.Copy` what `src` holds at that moment; `true` is a nil error. -/
def copyFile (lib : Lib) (w : World) (src dst : String) (mode : Nat) : Bool × World :=
  if w.denyRead src then (false, w) else
  match w.nodes src with
  | none => (false, w)
  | some _ =>
    match mkdirAll w (lib.dir dst) with
    | (false, w1) => (false, w1)
    | (true, w1) =>
      match openTrunc w1 dst mode with
      | none => (false, w1)
      | some (m, w2) =>
        match w2.nodes src with
        | some (Node.file c _) => (true, w2.setNode dst (Node.file c m))
        | _ => (false, w2)

/-- The loop of `isBinaryFile` over the bytes read. -/
def hasNul : Bytes → Bool
  | [] => false
  | b :: bs => if b = 0 then true else hasNul bs

/-- `isBinaryFile`: `none` is the error return, `some b` the verdict on the first
read of at most 8000 bytes. -/
def isBinaryFile (w : World) (path : String) : Option Bool :=
  if w.denyRead path then none else
  match w.nodes path with
  | some (Node.file c _) => some (hasNul (c.take 8000))
  | _ => none

/-! ## History -/

/-- `loadHistory`: the history of the bucket of `sourcePath` and its key. -/
def Store.loadHistory (lib : Lib) (s : Store) (w : World) (sourcePath : String) :
    Except Err (List Entry × String) :=
  let key := sourceKey lib sourcePath
  match w.index (indexPath s key) with
  | IndexFile.absent => Except.ok ([], key)
  | IndexFile.unreadable => Except.error Err.readIndex
  | IndexFile.corrupt => Except.error Err.decodeIndex
  | IndexFile.entries h => Except.ok (h, key)

/-- `saveHistory`: rewrite the whole index file; `true` is a nil error. -/
def Store.saveHistory (s : Store) (w : World) (key : String) (entries : List Entry) : Bool × World :=
  if w.denyWrite (indexPath s key) then (false, w)
  else (true, w.setIndex (indexPath s key) entries)

/-- `historyPosFromLatestIndex`. -/
def historyPosFromLatestIndex (history : List Entry) (index : Int) : Except Err Int :=
  if index < 0 then Except.error Err.indexNegative else
  let latest : Int := (history.length : Int) - 1
  let pos := latest - index
  if pos < 0 ∨ pos > latest then Except.error (Err.indexOutOfRange index latest)
  else Except.ok pos

/-- The slice expression `history[i]` for a Go `int`: `none` is the panic. -/
def sliceAt (history : List Entry) (i : Int) : Option Entry :=
  if i < 0 then none else history[i.toNat]?

/-! ## Operations -/

/-- `Store.Backup`. -/
def Store.Backup (lib : Lib) (s : Store) (w : World) (path : String) : Except Err Entry × World :=
  match lib.abs path with
  | none => (Except.error Err.resolvePath, w)
  | some a =>
    let resolved := lib.clean a
    match w.nodes resolved with
    | none => (Except.error Err.statTarget, w)
    | some Node.dir => (Except.error (Err.directoryTarget resolved), w)
    | some (Node.file content fmode) =>
      match Store.loadHistory lib s w resolved with
      | Except.error e => (Except.error e, w)
      | Except.ok (history, key) =>
        let id := fmtInt (w.clock w.tick)
        let w0 := w.advance
        match mkdirAll w0 (snapshotDir s key) with
        | (false, w1) => (Except.error Err.createSnapshotDir, w1)
        | (true, w1) =>
          match copyFile lib w1 resolved (snapshotPath s key id) fmode with
          | (false, w2) => (Except.error Err.createSnapshot, w2)
          | (true, w2) =>
            let entry : Entry :=
              { ID := id
                SourcePath := resolved
                SnapshotPath := snapshotPath s key id
                CreatedAt := w2.clock w2.tick
                SizeBytes := (content.length : Int)
                Mode := fmode }
            match Store.saveHistory s w2.advance key (history ++ [entry]) with
            | (false, w3) => (Except.error Err.writeIndex, w3)
            | (true, w3) => (Except.ok entry, w3)

/-- `Store.Restore`. -/
def Store.Restore (lib : Lib) (s : Store) (w : World) (path : String) (index : Int) (pop : Bool) :
    Except Err Entry × World :=
  match lib.abs path with
  | none => (Except.error Err.resolvePath, w)
  | some a =>
    let resolved := lib.clean a
    match Store.loadHistory lib s w resolved with
    | Except.error e => (Except.error e, w)
    | Except.ok (history, key) =>
      if history.length = 0 then (Except.error Err.noBackups, w) else
      match historyPosFromLatestIndex history index with
      | Except.error e => (Except.error e, w)
      | Except.ok pos =>
        match sliceAt history pos with
        | none => (Except.error Err.indexPanic, w)
        | some entry =>
          let mode := if entry.Mode = 0 then 0o644 else entry.Mode
          match copyFile lib w entry.SnapshotPath resolved mode with
          | (false, w1) => (Except.error Err.restoreFile, w1)
          | (true, w1) =>
            if pop then
              match Store.saveHistory s w1 key (history.take pos.toNat ++ history.drop (pos.toNat + 1)) with
              | (false, w2) => (Except.error Err.writeIndex, w2)
              | (true, w2) => (Except.ok entry, w2)
            else (Except.ok entry, w1)

/-- The loop of `Store.List`: `for i := len(history) - 1; i >= 0; i--`, with the
counter `n = i + 1`; the index is always in range. -/
def listLoop (history : List Entry) : Nat → List Entry → List Entry
  | 0, out => out
  | i + 1, out => listLoop history i (out ++ (history[i]?).toList)

/-- `Store.List`. -/
def Store.List (lib : Lib) (s : Store) (w : World) (path : String) : Except Err (List Entry) × World :=
  match lib.abs path with
  | none => (Except.error Err.resolvePath, w)
  | some a =>
    let resolved := lib.clean a
    match Store.loadHistory lib s w resolved with
    | Except.error e => (Except.error e, w)
    | Except.ok (history, _) =>
      if history.length = 0 then (Except.error Err.noBackups, w)
      else (Except.ok (listLoop history history.length []), w)

/-- The notice returned when the working file is binary. -/
def binaryFileNotice : String :=
  "binary file detected; textual diff is not supported for this target"

/-- The notice returned when the latest snapshot is binary. -/
def binarySnapshotNotice : String :=
  "binary snapshot detected; textual diff is not supported for this target"

/-- `Store.DiffWorkingVsLatest`. -/
def Store.DiffWorkingVsLatest (lib : Lib) (s : Store) (w : World) (path : String) :
    Except Err String × World :=
  match lib.abs path with
  | none => (Except.error Err.resolvePath, w)
  | some a =>
    let resolved := lib.clean a
    match Store.loadHistory lib s w resolved with
    | Except.error e => (Except.error e, w)
    | Except.ok (history, _) =>
      if history.length = 0 then (Except.error Err.noBackups, w) else
      match sliceAt history ((history.length : Int) - 1) with
      | none => (Except.error Err.indexPanic, w)
      | some latest =>
        if isBinaryFile w resolved = some true then (Except.ok binaryFileNotice, w)
        else if isBinaryFile w latest.SnapshotPath = some true then
          (Except.ok binarySnapshotNotice, w)
        else
          let w1 := { w with execs := w.execs ++ [(latest.SnapshotPath, resolved)] }
          match lib.execDiff w latest.SnapshotPath resolved with
          | ExecOutcome.exited 0 _ => (Except.ok "no changes", w1)
          | ExecOutcome.exited 1 output => (Except.ok output, w1)
          | _ => (Except.error Err.runDiff, w1)

/-! ## The scenario of repeated backups and pops -/

/-- The edit between two backups, `os.WriteFile(p, content, 0o644)` as the tests
do it: an existing file keeps its mode, a missing one is created under the
umask, a directory is left alone. -/
def userWrite (w : World) (p : String) (content : Bytes) : World :=
  match w.nodes p with
  | some Node.dir => w
  | some (Node.file _ m) => w.setNode p (Node.file content m)
  | none => w.setNode p (Node.file content (applyUmask w.umask 0o644))

/-- Write each content to the file and back it up, in sequence; the result is the
entries the backups returned and the final world, `none` when a backup failed. -/
def backupAll (lib : Lib) (s : Store) (path : String) : World → List Bytes → Option (List Entry × World)
  | w, [] => some ([], w)
  | w, content :: rest =>
    match lib.abs path with
    | none => none
    | some a =>
      match Store.Backup lib s (userWrite w (lib.clean a) content) path with
      | (Except.ok e, w1) =>
        match backupAll lib s path w1 rest with
        | some (es, w2) => some (e :: es, w2)
        | none => none
      | (Except.error _, _) => none

/-- Call `Restore(path, 0, pop=true)` `n` times; the result lists, call by call,
the content the file has and the length the history has after the call, `none`
when a call failed. -/
def popAll (lib : Lib) (s : Store) (path : String) : Nat → World → Option (List (Bytes × Nat) × World)
  | 0, w => some ([], w)
  | n + 1, w =>
    match lib.abs path with
    | none => none
    | some a =>
      match Store.Restore lib s w path 0 true with
      | (Except.ok _, w1) =>
        match w1.nodes (lib.clean a), Store.loadHistory lib s w1 (lib.clean a) with
        | some (Node.file content _), Except.ok (h, _) =>
          match popAll lib s path n w1 with
          | some (r, w2) => some ((content, h.length) :: r, w2)
          | none => none
        | _, _ => none
      | (Except.error _, _) => none

/-! ## Specification predicates -/

/-- Spec wording of the LIFO property, for contents listed latest first on top of
a history of `n0` older entries: each pop leaves the next content in the file and
the history one entry shorter. -/
def popExpected (n0 : Nat) : List Bytes → List (Bytes × Nat)
  | [] => []
  | content :: older => (content, n0 + older.length) :: popExpected n0 older


/-- Spec wording of "detected as binary": the file at `p` can be opened and read
and a NUL byte occurs within its first 8000 bytes. -/
def NulInFirstChunk (w : World) (p : String) : Prop :=
  w.denyRead p = false ∧
    ∃ bs m i, w.nodes p = some (Node.file bs m) ∧ i < 8000 ∧ bs[i]? = some 0

/-! ## Fixtures

A concrete library, store and world on which the theorems below are
instantiated: the file `/home/f` with three snapshots, as in `TestRestoreByIndex`. -/

/-- A stand-in digest, three bytes per character; it is injective. -/
def exDigestChars : List Char → List Nat
  | [] => []
  | c :: cs => c.toNat / 65536 % 256 :: c.toNat / 256 % 256 :: c.toNat % 256 :: exDigestChars cs

/-- The external comparison: exit code 0 on equal contents, 1 on different
contents, 2 when a side is not a regular file. -/
def exDiff (w : World) (a b : String) : ExecOutcome :=
  match w.nodes a, w.nodes b with
  | some (Node.file c1 _), some (Node.file c2 _) =>
    if c1 = c2 then ExecOutcome.exited 0 "" else ExecOutcome.exited 1 "files differ"
  | _, _ => ExecOutcome.exited 2 "diff: no such file"

/-- The library of the fixtures: paths are absolute and clean already. -/
def exLib : Lib :=
  { abs := fun p => some p
    clean := fun p => p
    dir := fun _ => "/home"
    sum256 := fun s => exDigestChars s.data
    unicodeToLower := fun c => c
    execDiff := exDiff }

/-- The store of the fixtures. -/
def exStore : Store := { root := "/r" }

/-- The bucket key of `/home/f`. -/
def exKey : String := sourceKey exLib "/home/f"

/-- The entry of the backup taken at clock reading `n` of a three-byte file. -/
def exEntry (n : Nat) : Entry :=
  { ID := fmtInt n
    SourcePath := "/home/f"
    SnapshotPath := snapshotPath exStore exKey (fmtInt n)
    CreatedAt := (n : Int) + 1
    SizeBytes := 3
    Mode := 0o644 }

/-- Three entries, oldest first. -/
def exHistory : List Entry := [exEntry 1, exEntry 3, exEntry 5]

/-- The world after three backups of `v1`, `v2`, `v3` and a damaging edit. -/
def exWorld : World :=
  { nodes := fun p =>
      if p = "/home" then some Node.dir
      else if p = "/home/f" then some (Node.file [111, 111, 112, 115, 10] 0o600)
      else if p = (exEntry 1).SnapshotPath then some (Node.file [118, 49, 10] 0o644)
      else if p = (exEntry 3).SnapshotPath then some (Node.file [118, 50, 10] 0o644)
      else if p = (exEntry 5).SnapshotPath then some (Node.file [118, 51, 10] 0o644)
      else none
    index := fun p => if p = indexPath exStore exKey then IndexFile.entries exHistory
      else IndexFile.absent
    denyRead := fun _ => false
    denyWrite := fun _ => false
    superuser := false
    umask := 0o022
    clock := fun n => (n : Int) + 7
    tick := 0
    execs := [] }

/-- The world before any backup: the file `/home/f` holds `v1`. -/
def exWorld0 : World :=
  { nodes := fun p =>
      if p = "/home" then some Node.dir
      else if p = "/home/f" then some (Node.file [118, 49, 10] 0o644)
      else none
    index := fun _ => IndexFile.absent
    denyRead := fun _ => false
    denyWrite := fun _ => false
    superuser := false
    umask := 0o022
    clock := fun n => (n : Int) + 1
    tick := 0
    execs := [] }

/-- The latest entry of a file that was read-only when it was backed up. -/
def exEntryReadOnly : Entry :=
  { exEntry 5 with Mode := 0o444 }

/-- A world in which the read-only file `/home/f` was backed up once and has since
been deleted; the process is not the superuser. -/
def exWorldReadOnly : World :=
  { nodes := fun p =>
      if p = "/home" then some Node.dir
      else if p = exEntryReadOnly.SnapshotPath then some (Node.file [118, 51, 10] 0o444)
      else none
    index := fun p => if p = indexPath exStore exKey then IndexFile.entries [exEntryReadOnly]
      else IndexFile.absent
    denyRead := fun _ => false
    denyWrite := fun _ => false
    superuser := false
    umask := 0o022
    clock := fun n => (n : Int) + 7
    tick := 0
    execs := [] }

/-- The world of `exWorld0` under a coarse clock: four consecutive readings give
the same value. -/
def exWorldCoarse : World :=
  { exWorld0 with clock := fun n => ((n / 4 : Nat) : Int) }

/-! ## Auxiliary lemmas -/

theorem historyPos_ok (history : List Entry) (k : Int) (h0 : 0 ≤ k)
    (h1 : k ≤ (history.length : Int) - 1) :
    historyPosFromLatestIndex history k = Except.ok ((history.length : Int) - 1 - k) := by
  unfold historyPosFromLatestIndex
  have h2 : ¬ k < 0 := by omega
  have h3 : ¬ ((history.length : Int) - 1 - k < 0 ∨
      (history.length : Int) - 1 - k > (history.length : Int) - 1) := by omega
  simp only [h2, h3, if_false]

theorem historyPos_neg (history : List Entry) (k : Int) (h0 : k < 0) :
    historyPosFromLatestIndex history k = Except.error Err.indexNegative := by
  unfold historyPosFromLatestIndex
  simp only [h0, if_true]

theorem historyPos_big (history : List Entry) (k : Int) (h0 : (history.length : Int) - 1 < k) 
    (hN : 1 ≤ history.length) :
    historyPosFromLatestIndex history k =
      Except.error (Err.indexOutOfRange k ((history.length : Int) - 1)) := by
  unfold historyPosFromLatestIndex
  have h2 : ¬ k < 0 := by omega
  have h3 : ((history.length : Int) - 1 - k < 0 ∨
      (history.length : Int) - 1 - k > (history.length : Int) - 1) := by omega
  simp only [h2, h3, if_false, if_true]

theorem sliceAt_ofNat (history : List Entry) (p : Nat) : sliceAt history (p : Int) = history[p]? := by
  unfold sliceAt
  have : ¬ ((p : Int) < 0) := by omega
  simp only [this, if_false, Int.toNat_ofNat]

theorem loadHistory_entries (lib : Lib) (s : Store) (w : World) (resolved : String)
    (history : List Entry)
    (hidx : w.index (indexPath s (sourceKey lib resolved)) = IndexFile.entries history) :
    Store.loadHistory lib s w resolved = Except.ok (history, sourceKey lib resolved) := by
  simp only [Store.loadHistory, hidx]

theorem Restore_unfold (lib : Lib) (s : Store) (w : World) (path a : String) (pop : Bool)
    (history : List Entry) (p : Nat) (e : Entry)
    (habs : lib.abs path = some a)
    (hidx : w.index (indexPath s (sourceKey lib (lib.clean a))) = IndexFile.entries history)
    (he : history[p]? = some e) :
    Store.Restore lib s w path ((history.length : Int) - 1 - p) pop =
      match copyFile lib w e.SnapshotPath (lib.clean a) (if e.Mode = 0 then 0o644 else e.Mode) with
      | (false, w1) => (Except.error Err.restoreFile, w1)
      | (true, w1) =>
        if pop then
          match Store.saveHistory s w1 (sourceKey lib (lib.clean a))
              (history.take p ++ history.drop (p + 1)) with
          | (false, w2) => (Except.error Err.writeIndex, w2)
          | (true, w2) => (Except.ok e, w2)
        else (Except.ok e, w1) := by
  have hp : p < history.length := by
    rcases Nat.lt_or_ge p history.length with h | h
    · exact h
    · rw [List.getElem?_eq_none h] at he; cases he
  have hlen : ¬ history.length = 0 := by omega
  have hpos := historyPos_ok history ((history.length : Int) - 1 - p) (by omega) (by omega)
  have hcast : (history.length : Int) - 1 - ((history.length : Int) - 1 - p) = (p : Int) := by omega
  rw [hcast] at hpos
  simp only [Store.Restore, habs, loadHistory_entries lib s w _ history hidx, hlen, if_false, hpos,
    sliceAt_ofNat, he, Int.toNat_ofNat]

@[simp] theorem setNode_nodes_same (w : World) (p : String) (n : Node) :
    (w.setNode p n).nodes p = some n := by
  simp [World.setNode]

theorem setNode_nodes_ne (w : World) (p q : String) (n : Node) (h : q ≠ p) :
    (w.setNode p n).nodes q = w.nodes q := by
  simp [World.setNode, Function.update_noteq h]

@[simp] theorem setNode_index (w : World) (p : String) (n : Node) : (w.setNode p n).index = w.index := rfl
@[simp] theorem setNode_denyRead (w : World) (p : String) (n : Node) : (w.setNode p n).denyRead = w.denyRead := rfl
@[simp] theorem setNode_denyWrite (w : World) (p : String) (n : Node) : (w.setNode p n).denyWrite = w.denyWrite := rfl
@[simp] theorem setNode_superuser (w : World) (p : String) (n : Node) : (w.setNode p n).superuser = w.superuser := rfl
@[simp] theorem setNode_umask (w : World) (p : String) (n : Node) : (w.setNode p n).umask = w.umask := rfl
@[simp] theorem setNode_clock (w : World) (p : String) (n : Node) : (w.setNode p n).clock = w.clock := rfl
@[simp] theorem setNode_tick (w : World) (p : String) (n : Node) : (w.setNode p n).tick = w.tick := rfl
@[simp] theorem setNode_execs (w : World) (p : String) (n : Node) : (w.setNode p n).execs = w.execs := rfl

theorem setNode_setNode (w : World) (p : String) (n n' : Node) :
    (w.setNode p n).setNode p n' = w.setNode p n' := by
  simp [World.setNode]

/-- What a successful `mkdirAll` leaves: the same world when the directory was
there, otherwise the world with that one directory added. -/
theorem mkdirAll_true (w w1 : World) (d : String) (h : mkdirAll w d = (true, w1)) :
    (w.nodes d = some Node.dir ∧ w1 = w) ∨
    (w.nodes d = none ∧ w.denyWrite d = false ∧ w1 = w.setNode d Node.dir) := by
  unfold mkdirAll at h
  split at h
  · left
    simp only [Prod.mk.injEq, true_and] at h
    exact ⟨by assumption, h.symm⟩
  · simp at h
  · right
    split at h
    · simp at h
    · simp only [Prod.mk.injEq, true_and] at h
      rename_i hnone hdeny
      exact ⟨hnone, Bool.eq_false_iff.mpr hdeny, h.symm⟩

theorem mkdirAll_dir (w : World) (d : String) (h : w.nodes d = some Node.dir) :
    mkdirAll w d = (true, w) := by
  simp only [mkdirAll, h]

/-- What a successful `copyFile` leaves: the world after `mkdirAll` with the node
at `dst` replaced by a file that holds what `src` held (nothing when `src` and
`dst` are the same path) under the mode of the file that was there, or under the
requested mode cut by the umask when there was none. -/
theorem copyFile_true (lib : Lib) (w w' : World) (src dst : String) (mode : Nat)
    (h : copyFile lib w src dst mode = (true, w')) :
    ∃ w1 c m, mkdirAll w (lib.dir dst) = (true, w1) ∧ w.denyRead src = false ∧
      (∃ n, w.nodes src = some n) ∧ w1.denyWrite dst = false ∧
      ((w1.nodes dst = none ∧ m = applyUmask w1.umask mode) ∨
        ∃ old, w1.nodes dst = some (Node.file old m) ∧
          (w1.superuser = true ∨ ownerWritable m = true)) ∧
      ((src = dst ∧ c = []) ∨ (src ≠ dst ∧ ∃ ms, w1.nodes src = some (Node.file c ms))) ∧
      w' = w1.setNode dst (Node.file c m) := by
  unfold copyFile at h
  split at h
  · simp at h
  rename_i hr
  split at h
  · simp at h
  rename_i n hn
  split at h
  · simp at h
  rename_i w1 hmk
  split at h
  · simp at h
  rename_i m w2 hopen
  split at h
  swap
  · simp at h
  rename_i c ms hsrc
  simp only [Prod.mk.injEq, true_and] at h
  unfold openTrunc at hopen
  split at hopen
  · simp at hopen
  rename_i hw
  refine ⟨w1, c, m, hmk, by simpa using hr, ⟨n, hn⟩, by simpa using hw, ?_⟩
  split at hopen
  · simp at hopen
  · rename_i old0 m0 hdst
    split at hopen
    swap
    · simp at hopen
    rename_i hperm
    simp only [Option.some.injEq, Prod.mk.injEq] at hopen
    obtain ⟨hm, hw2⟩ := hopen
    subst hm
    subst hw2
    refine ⟨Or.inr ⟨old0, hdst, by simpa using hperm⟩, ?_, ?_⟩
    · by_cases hsd : src = dst
      · left
        subst hsd
        simp at hsrc
        exact ⟨rfl, hsrc.1⟩
      · right
        rw [setNode_nodes_ne _ _ _ _ hsd] at hsrc
        exact ⟨hsd, ms, hsrc⟩
    · rw [← h, setNode_setNode]
  · rename_i hdst
    simp only [Option.some.injEq, Prod.mk.injEq] at hopen
    obtain ⟨hm, hw2⟩ := hopen
    subst hw2
    refine ⟨Or.inl ⟨hdst, hm.symm⟩, ?_, ?_⟩
    · by_cases hsd : src = dst
      · left
        subst hsd
        simp at hsrc
        exact ⟨rfl, hsrc.1⟩
      · right
        rw [setNode_nodes_ne _ _ _ _ hsd] at hsrc
        exact ⟨hsd, ms, hsrc⟩
    · rw [← h, setNode_setNode]

@[simp] theorem setIndex_nodes (w : World) (p : String) (h : List Entry) : (w.setIndex p h).nodes = w.nodes := rfl
@[simp] theorem setIndex_denyRead (w : World) (p : String) (h : List Entry) : (w.setIndex p h).denyRead = w.denyRead := rfl
@[simp] theorem setIndex_denyWrite (w : World) (p : String) (h : List Entry) : (w.setIndex p h).denyWrite = w.denyWrite := rfl
@[simp] theorem setIndex_superuser (w : World) (p : String) (h : List Entry) : (w.setIndex p h).superuser = w.superuser := rfl
@[simp] theorem setIndex_umask (w : World) (p : String) (h : List Entry) : (w.setIndex p h).umask = w.umask := rfl
@[simp] theorem setIndex_clock (w : World) (p : String) (h : List Entry) : (w.setIndex p h).clock = w.clock := rfl
@[simp] theorem setIndex_tick (w : World) (p : String) (h : List Entry) : (w.setIndex p h).tick = w.tick := rfl
@[simp] theorem setIndex_execs (w : World) (p : String) (h : List Entry) : (w.setIndex p h).execs = w.execs := rfl

@[simp] theorem setIndex_index_same (w : World) (p : String) (h : List Entry) :
    (w.setIndex p h).index p = IndexFile.entries h := by
  simp [World.setIndex]

/-- A directory target is refused: `Backup` returns the "directory backup is not
implemented yet" error and leaves the world as it was. -/
theorem Backup_directory (lib : Lib) (s : Store) (w : World) (path a : String)
    (habs : lib.abs path = some a) (hdir : w.nodes (lib.clean a) = some Node.dir) :
    Store.Backup lib s w path = (Except.error (Err.directoryTarget (lib.clean a)), w) := by
  simp only [Store.Backup, habs, hdir]

/-- A successful `mkdirAll` changes no file, no index file and no oracle. -/
theorem mkdirAll_frame (w w1 : World) (d : String) (h : mkdirAll w d = (true, w1)) :
    w1.index = w.index ∧ w1.denyRead = w.denyRead ∧ w1.denyWrite = w.denyWrite ∧
    w1.umask = w.umask ∧ w1.clock = w.clock ∧ w1.tick = w.tick ∧ w1.execs = w.execs ∧
    w1.nodes d = some Node.dir ∧
    (∀ p n, w.nodes p = some n → w1.nodes p = some n) ∧
    (∀ p, p ≠ d → w1.nodes p = w.nodes p) := by
  rcases mkdirAll_true w w1 d h with ⟨hd, rfl⟩ | ⟨hd, _, rfl⟩
  · exact ⟨rfl, rfl, rfl, rfl, rfl, rfl, rfl, hd, fun _ _ hp => hp, fun _ _ => rfl⟩
  · refine ⟨rfl, rfl, rfl, rfl, rfl, rfl, rfl, by simp, ?_, ?_⟩
    · intro p n hp
      have hne : p ≠ d := by
        rintro rfl
        rw [hd] at hp
        cases hp
      rw [setNode_nodes_ne _ _ _ _ hne, hp]
    · intro p hne
      exact setNode_nodes_ne _ _ _ _ hne

/-- A successful `copyFile` changes no index file and no oracle. -/
theorem copyFile_frame (lib : Lib) (w w' : World) (src dst : String) (mode : Nat)
    (h : copyFile lib w src dst mode = (true, w')) :
    w'.index = w.index ∧ w'.denyRead = w.denyRead ∧ w'.denyWrite = w.denyWrite ∧
    w'.umask = w.umask ∧ w'.clock = w.clock ∧ w'.tick = w.tick ∧ w'.execs = w.execs := by
  obtain ⟨w1, c, m, hmk, _, _, _, _, _, rfl⟩ := copyFile_true lib w _ src dst mode h
  obtain ⟨h1, h2, h3, h4, h5, h6, h7, _⟩ := mkdirAll_frame w w1 _ hmk
  exact ⟨h1, h2, h3, h4, h5, h6, h7⟩

/-- After a successful `copyFile` the destination is a file with the content the
source holds afterwards; when the two paths differ that is the content the source
held before, and the mode is the one the destination had, or the requested mode
under the umask when it did not exist. -/
theorem copyFile_content (lib : Lib) (w w' : World) (src dst : String) (mode : Nat)
    (h : copyFile lib w src dst mode = (true, w')) :
    ∃ c m ms, w'.nodes dst = some (Node.file c m) ∧ w'.nodes src = some (Node.file c ms) ∧
      (src ≠ dst → w.nodes src = some (Node.file c ms)) ∧
      (src = dst → c = []) ∧
      ((∃ old, w.nodes dst = some (Node.file old m)) ∨
        (w.nodes dst = none ∧ m = applyUmask w.umask mode)) := by
  obtain ⟨w1, c, m, hmk, _, ⟨n, hn⟩, _, hdst, hsrc, rfl⟩ := copyFile_true lib w _ src dst mode h
  obtain ⟨_, _, _, hum, _, _, _, hd, hkeep, hother⟩ := mkdirAll_frame w w1 _ hmk
  have hdd : dst ≠ lib.dir dst := by
    intro heq
    rw [← heq] at hd
    rcases hdst with ⟨h1, _⟩ | ⟨old, h1, _⟩ <;> rw [hd] at h1 <;> cases h1
  have hmode : (∃ old, w.nodes dst = some (Node.file old m)) ∨
      (w.nodes dst = none ∧ m = applyUmask w.umask mode) := by
    rcases hdst with ⟨h1, h2⟩ | ⟨old, h1, _⟩
    · right
      rw [hother dst hdd] at h1
      rw [hum] at h2
      exact ⟨h1, h2⟩
    · left
      rw [hother dst hdd] at h1
      exact ⟨old, h1⟩
  rcases hsrc with ⟨rfl, rfl⟩ | ⟨hne, ms, hs⟩
  · exact ⟨[], m, m, by simp, by simp, fun hc => absurd rfl hc, fun _ => rfl, hmode⟩
  · refine ⟨c, m, ms, by simp, ?_, ?_, fun hc => absurd hc hne, hmode⟩
    · rw [setNode_nodes_ne _ _ _ _ hne, hs]
    · intro _
      have := hkeep src n hn
      rw [hs] at this
      rw [hn, this]

/-- Neither `mkdirAll` nor `copyFile` changes who the process is. -/
theorem copyFile_superuser (lib : Lib) (w w' : World) (src dst : String) (mode : Nat)
    (h : copyFile lib w src dst mode = (true, w')) : w'.superuser = w.superuser := by
  obtain ⟨w1, c, m, hmk, _, _, _, _, _, rfl⟩ := copyFile_true lib w _ src dst mode h
  rcases mkdirAll_true w w1 _ hmk with ⟨_, rfl⟩ | ⟨_, _, rfl⟩ <;> rfl

/-- Copying again after a successful `copyFile`: the destination is now a file,
and the second copy succeeds and changes nothing when the mode of that file lets
the process write, and fails at the open, changing nothing, when it does not. -/
theorem copyFile_again (lib : Lib) (w w' : World) (src dst : String) (mode : Nat)
    (h : copyFile lib w src dst mode = (true, w')) :
    ∃ content m, w'.nodes dst = some (Node.file content m) ∧
      ((w'.superuser = true ∨ ownerWritable m = true) →
        ∀ mode', copyFile lib w' src dst mode' = (true, w')) ∧
      (w'.superuser = false → ownerWritable m = false →
        ∀ mode', copyFile lib w' src dst mode' = (false, w')) := by
  obtain ⟨w1, c, m, hmk, hr, ⟨n, hn⟩, hw, hdst, hsrc, rfl⟩ := copyFile_true lib w _ src dst mode h
  obtain ⟨_, hdr, _, _, _, _, _, hd, hkeep, _⟩ := mkdirAll_frame w w1 _ hmk
  have hdd : lib.dir dst ≠ dst := by
    intro heq
    rw [heq] at hd
    rcases hdst with ⟨h1, _⟩ | ⟨old, h1, _⟩ <;> rw [hd] at h1 <;> cases h1
  have hmk2 : mkdirAll (w1.setNode dst (Node.file c m)) (lib.dir dst) =
      (true, w1.setNode dst (Node.file c m)) :=
    mkdirAll_dir _ _ (by rw [setNode_nodes_ne _ _ _ _ hdd, hd])
  have hr2 : (w1.setNode dst (Node.file c m)).denyRead src = false := by
    simp only [setNode_denyRead, hdr, hr]
  have hsome : ∃ n', (w1.setNode dst (Node.file c m)).nodes src = some n' := by
    rcases hsrc with ⟨rfl, rfl⟩ | ⟨hne, ms, hs⟩
    · exact ⟨_, setNode_nodes_same _ _ _⟩
    · exact ⟨_, by rw [setNode_nodes_ne _ _ _ _ hne, hs]⟩
  obtain ⟨n', hn'⟩ := hsome
  refine ⟨c, m, setNode_nodes_same _ _ _, ?_, ?_⟩
  · intro hp mode'
    have hp' : (w1.superuser || ownerWritable m) = true := by
      rcases hp with h1 | h1
      · rw [setNode_superuser] at h1
        simp [h1]
      · simp [h1]
    rcases hsrc with ⟨rfl, rfl⟩ | ⟨hne, ms, hs⟩
    · simp [copyFile, hr2, hmk2, openTrunc, hw, setNode_setNode, hp']
    · have hs2 : (w1.setNode dst (Node.file c m)).nodes src = some (Node.file c ms) := by
        rw [setNode_nodes_ne _ _ _ _ hne, hs]
      simp [copyFile, hr2, hmk2, openTrunc, hw, setNode_setNode, hs2,
        setNode_nodes_ne _ _ _ _ hne, hs, hp']
  · intro hsu how mode'
    rw [setNode_superuser] at hsu
    simp [copyFile, hr2, hn', hmk2, openTrunc, hw, hsu, how]

theorem saveHistory_true (s : Store) (w w' : World) (key : String) (es : List Entry)
    (h : Store.saveHistory s w key es = (true, w')) :
    w.denyWrite (indexPath s key) = false ∧ w' = w.setIndex (indexPath s key) es := by
  unfold Store.saveHistory at h
  split at h
  · simp at h
  · rename_i hd
    simp only [Prod.mk.injEq, true_and] at h
    exact ⟨Bool.eq_false_iff.mpr hd, h.symm⟩

theorem saveHistory_writable (s : Store) (w : World) (key : String) (es : List Entry)
    (h : w.denyWrite (indexPath s key) = false) :
    Store.saveHistory s w key es = (true, w.setIndex (indexPath s key) es) := by
  simp [Store.saveHistory, h]

/-- What a successful `Restore` of the entry at position `p` did: the copy of its
snapshot onto the resolved path succeeded and, when popping, the index file was
rewritten with the history less position `p`. -/
theorem Restore_ok_inv (lib : Lib) (s : Store) (w w' : World) (path a : String) (pop : Bool)
    (history : List Entry) (p : Nat) (e e' : Entry)
    (habs : lib.abs path = some a)
    (hidx : w.index (indexPath s (sourceKey lib (lib.clean a))) = IndexFile.entries history)
    (he : history[p]? = some e)
    (hres : Store.Restore lib s w path ((history.length : Int) - 1 - p) pop = (Except.ok e', w')) :
    e' = e ∧ ∃ w1,
      copyFile lib w e.SnapshotPath (lib.clean a) (if e.Mode = 0 then 0o644 else e.Mode) = (true, w1) ∧
      ((pop = false ∧ w' = w1) ∨
       (pop = true ∧ w1.denyWrite (indexPath s (sourceKey lib (lib.clean a))) = false ∧
          w' = w1.setIndex (indexPath s (sourceKey lib (lib.clean a)))
            (history.take p ++ history.drop (p + 1)))) := by
  rw [Restore_unfold lib s w path a pop history p e habs hidx he] at hres
  split at hres
  · simp at hres
  rename_i w1 hcp
  cases pop
  · simp only [Bool.false_eq_true, if_false, Prod.mk.injEq, Except.ok.injEq] at hres
    exact ⟨hres.1.symm, w1, hcp, Or.inl ⟨rfl, hres.2.symm⟩⟩
  · simp only [if_true] at hres
    split at hres
    · simp at hres
    rename_i w2 hsv
    simp only [Prod.mk.injEq, Except.ok.injEq] at hres
    obtain ⟨hd, hw2⟩ := saveHistory_true s w1 w2 _ _ hsv
    exact ⟨hres.1.symm, w1, hcp, Or.inr ⟨rfl, hd, by rw [← hres.2, hw2]⟩⟩

/-- An index outside `0..N-1` makes `Restore` return the error of
`historyPosFromLatestIndex` and leave the world as it was. -/
theorem Restore_out_of_range (lib : Lib) (s : Store) (w : World) (path a : String) (pop : Bool)
    (history : List Entry) (k : Int) (err : Err)
    (habs : lib.abs path = some a)
    (hidx : w.index (indexPath s (sourceKey lib (lib.clean a))) = IndexFile.entries history)
    (hN : 1 ≤ history.length)
    (herr : historyPosFromLatestIndex history k = Except.error err) :
    Store.Restore lib s w path k pop = (Except.error err, w) := by
  have hlen : ¬ history.length = 0 := by omega
  simp only [Store.Restore, habs, loadHistory_entries lib s w _ history hidx, hlen, if_false, herr]

theorem Restore_ok_range (lib : Lib) (s : Store) (w w' : World) (path a : String) (pop : Bool)
    (history : List Entry) (k : Int) (e : Entry)
    (habs : lib.abs path = some a)
    (hidx : w.index (indexPath s (sourceKey lib (lib.clean a))) = IndexFile.entries history)
    (hres : Store.Restore lib s w path k pop = (Except.ok e, w')) :
    0 ≤ k ∧ k ≤ (history.length : Int) - 1 := by
  by_cases hlen : history.length = 0
  · simp [Store.Restore, habs, loadHistory_entries lib s w _ history hidx, hlen] at hres
  have hN : 1 ≤ history.length := by omega
  by_contra hcon
  rcases lt_or_le k 0 with hk | hk
  · rw [Restore_out_of_range lib s w path a pop history k _ habs hidx hN
      (historyPos_neg history k hk)] at hres
    simp at hres
  · have hk2 : (history.length : Int) - 1 < k := by
      by_contra h2
      exact hcon ⟨hk, by omega⟩
    rw [Restore_out_of_range lib s w path a pop history k _ habs hidx hN
      (historyPos_big history k hk2 hN)] at hres
    simp at hres

/-- The position a valid index selects holds an entry. -/
theorem pos_entry (history : List Entry) (k : Int) (h0 : 0 ≤ k)
    (h1 : k ≤ (history.length : Int) - 1) :
    ∃ e, history[((history.length : Int) - 1 - k).toNat]? = some e ∧
      k = (history.length : Int) - 1 - (((history.length : Int) - 1 - k).toNat : Nat) := by
  have hlt : ((history.length : Int) - 1 - k).toNat < history.length := by omega
  refine ⟨history[((history.length : Int) - 1 - k).toNat], List.getElem?_eq_getElem hlt, ?_⟩
  omega

theorem listLoop_eq (history : List Entry) (n : Nat) (out : List Entry) :
    listLoop history n out = out ++ (history.take n).reverse := by
  induction n generalizing out with
  | zero => simp [listLoop]
  | succ n ih =>
    rw [listLoop, ih, List.take_succ, List.reverse_append, List.append_assoc]
    cases h : history[n]? <;> simp

theorem List_entries (lib : Lib) (s : Store) (w : World) (path a : String)
    (history : List Entry) (habs : lib.abs path = some a)
    (hidx : w.index (indexPath s (sourceKey lib (lib.clean a))) = IndexFile.entries history)
    (hN : 1 ≤ history.length) :
    Store.List lib s w path = (Except.ok history.reverse, w) := by
  have hlen : ¬ history.length = 0 := by omega
  simp only [Store.List, habs, loadHistory_entries lib s w _ history hidx, hlen, if_false,
    listLoop_eq, List.nil_append, List.take_length]

theorem reverse_getElem? (history : List Entry) (k : Nat) (hk : k < history.length) :
    history.reverse[k]? = history[history.length - 1 - k]? := by
  rw [List.getElem?_reverse hk]

theorem hexDigit_inj : ∀ n, n < 16 → ∀ m, m < 16 →
    hextable.getD n '0' = hextable.getD m '0' → n = m := by
  decide

/-- The hex encoding is injective on byte strings. -/
theorem hexEncode_inj : ∀ (xs ys : List Nat), (∀ b ∈ xs, b < 256) → (∀ b ∈ ys, b < 256) →
    hexEncode xs = hexEncode ys → xs = ys
  | [], [], _, _, _ => rfl
  | [], _ :: _, _, _, h => by simp [hexEncode] at h
  | _ :: _, [], _, _, h => by simp [hexEncode] at h
  | x :: xs, y :: ys, hx, hy, h => by
    simp only [hexEncode, List.cons.injEq] at h
    obtain ⟨h1, h2, h3⟩ := h
    have hx0 : x < 256 := hx x (List.mem_cons_self _ _)
    have hy0 : y < 256 := hy y (List.mem_cons_self _ _)
    have e1 := hexDigit_inj (x / 16) (by omega) (y / 16) (by omega) h1
    have e2 := hexDigit_inj (x % 16) (by omega) (y % 16) (by omega) h2
    have exy : x = y := by omega
    have ih := hexEncode_inj xs ys (fun b hb => hx b (List.mem_cons_of_mem _ hb))
      (fun b hb => hy b (List.mem_cons_of_mem _ hb)) h3
    rw [exy, ih]

/-- With a digest that returns bytes and is injective, two paths share a bucket
key exactly when their lower-cased forms coincide. -/
theorem sourceKey_eq_iff (lib : Lib) (hbytes : ∀ s, ∀ b ∈ lib.sum256 s, b < 256)
    (hinj : Function.Injective lib.sum256) (p q : String) :
    sourceKey lib p = sourceKey lib q ↔ ToLower lib p = ToLower lib q := by
  constructor
  · intro h
    unfold sourceKey at h
    have h2 : hexEncode (lib.sum256 (ToLower lib p)) = hexEncode (lib.sum256 (ToLower lib q)) := by
      injection h
    exact hinj (hexEncode_inj _ _ (hbytes _) (hbytes _) h2)
  · intro h
    unfold sourceKey
    rw [h]

theorem exDigestChars_bytes : ∀ (cs : List Char), ∀ b ∈ exDigestChars cs, b < 256
  | [], b, hb => by simp [exDigestChars] at hb
  | c :: cs, b, hb => by
    simp only [exDigestChars, List.mem_cons] at hb
    rcases hb with rfl | rfl | rfl | hb
    · exact Nat.mod_lt _ (by decide)
    · exact Nat.mod_lt _ (by decide)
    · exact Nat.mod_lt _ (by decide)
    · exact exDigestChars_bytes cs b hb

theorem exDigestChars_inj : ∀ (xs ys : List Char), exDigestChars xs = exDigestChars ys → xs = ys
  | [], [], _ => rfl
  | [], _ :: _, h => by simp [exDigestChars] at h
  | _ :: _, [], h => by simp [exDigestChars] at h
  | x :: xs, y :: ys, h => by
    simp only [exDigestChars, List.cons.injEq] at h
    obtain ⟨h1, h2, h3, h4⟩ := h
    have hx : x.toNat < 1114112 := by
      have := x.valid
      rcases this with h | ⟨_, h⟩
      · show x.val.toNat < 1114112
        have : x.val.toNat < 55296 := h
        omega
      · exact h
    have hy : y.toNat < 1114112 := by
      have := y.valid
      rcases this with h | ⟨_, h⟩
      · show y.val.toNat < 1114112
        have : y.val.toNat < 55296 := h
        omega
      · exact h
    have exy : x.toNat = y.toNat := by omega
    have : x = y := by
      apply Char.ext
      apply UInt32.ext
      exact exy
    rw [this, exDigestChars_inj xs ys h4]

theorem exLib_sum256_inj : Function.Injective exLib.sum256 := by
  intro p q h
  have : p.data = q.data := exDigestChars_inj _ _ h
  exact String.ext this

theorem hasNul_iff (bs : Bytes) : hasNul bs = true ↔ ∃ i : Nat, bs[i]? = some 0 := by
  induction bs with
  | nil => simp [hasNul]
  | cons b bs ih =>
    unfold hasNul
    by_cases hb : b = 0
    · simp only [hb, if_true, true_iff]
      exact ⟨0, by simp⟩
    · simp only [hb, if_false, ih]
      constructor
      · rintro ⟨i, hi⟩
        exact ⟨i + 1, by simpa using hi⟩
      · rintro ⟨i, hi⟩
        cases i with
        | zero =>
          simp at hi
          exact absurd hi hb
        | succ i => exact ⟨i, by simpa using hi⟩

/-- The verdict of `isBinaryFile` is `true` exactly for a readable regular file
with a NUL byte among its first 8000 bytes. -/
theorem isBinaryFile_true_iff (w : World) (p : String) :
    isBinaryFile w p = some true ↔ NulInFirstChunk w p := by
  unfold isBinaryFile NulInFirstChunk
  by_cases hr : w.denyRead p = true
  · simp [hr]
  · have hr2 : w.denyRead p = false := Bool.eq_false_iff.mpr hr
    simp only [hr2, Bool.false_eq_true, if_false, true_and]
    cases hn : w.nodes p with
    | none => simp
    | some n =>
      cases n with
      | dir => simp
      | file c m =>
        simp only [Option.some.injEq, Node.file.injEq, hasNul_iff]
        constructor
        · rintro ⟨i, hi⟩
          rw [List.getElem?_take] at hi
          by_cases hlt : i < 8000
          · rw [if_pos hlt] at hi
            exact ⟨c, m, i, ⟨rfl, rfl⟩, hlt, hi⟩
          · rw [if_neg hlt] at hi
            cases hi
        · rintro ⟨c', m', i, ⟨rfl, rfl⟩, hlt, hi⟩
          exact ⟨i, by rw [List.getElem?_take, if_pos hlt, hi]⟩

theorem sliceAt_last (history : List Entry) (hN : 1 ≤ history.length) :
    sliceAt history ((history.length : Int) - 1) = history[history.length - 1]? := by
  have h : (history.length : Int) - 1 = ((history.length - 1 : Nat) : Int) := by omega
  rw [h, sliceAt_ofNat]

@[simp] theorem advance_nodes (w : World) : w.advance.nodes = w.nodes := rfl
@[simp] theorem advance_index (w : World) : w.advance.index = w.index := rfl
@[simp] theorem advance_denyRead (w : World) : w.advance.denyRead = w.denyRead := rfl
@[simp] theorem advance_denyWrite (w : World) : w.advance.denyWrite = w.denyWrite := rfl
@[simp] theorem advance_superuser (w : World) : w.advance.superuser = w.superuser := rfl
@[simp] theorem advance_umask (w : World) : w.advance.umask = w.umask := rfl
@[simp] theorem advance_clock (w : World) : w.advance.clock = w.clock := rfl
@[simp] theorem advance_tick (w : World) : w.advance.tick = w.tick + 1 := rfl
@[simp] theorem advance_execs (w : World) : w.advance.execs = w.execs := rfl

/-- What a successful `Backup` did: the target was a regular file, the snapshot
directory and the copy were made, and the index file was rewritten with the new
entry at the end. -/
theorem Backup_ok_inv (lib : Lib) (s : Store) (w w' : World) (path a : String)
    (history : List Entry) (e : Entry)
    (habs : lib.abs path = some a)
    (hload : Store.loadHistory lib s w (lib.clean a) =
      Except.ok (history, sourceKey lib (lib.clean a)))
    (hres : Store.Backup lib s w path = (Except.ok e, w')) :
    ∃ content fmode w1 w2,
      w.nodes (lib.clean a) = some (Node.file content fmode) ∧
      mkdirAll w.advance (snapshotDir s (sourceKey lib (lib.clean a))) = (true, w1) ∧
      copyFile lib w1 (lib.clean a)
        (snapshotPath s (sourceKey lib (lib.clean a)) (fmtInt (w.clock w.tick))) fmode = (true, w2) ∧
      w2.denyWrite (indexPath s (sourceKey lib (lib.clean a))) = false ∧
      e = { ID := fmtInt (w.clock w.tick)
            SourcePath := lib.clean a
            SnapshotPath := snapshotPath s (sourceKey lib (lib.clean a)) (fmtInt (w.clock w.tick))
            CreatedAt := w2.clock w2.tick
            SizeBytes := (content.length : Int)
            Mode := fmode } ∧
      w' = w2.advance.setIndex (indexPath s (sourceKey lib (lib.clean a))) (history ++ [e]) := by
  unfold Store.Backup at hres
  simp only [habs] at hres
  split at hres
  · simp at hres
  · simp at hres
  rename_i content fmode hnode
  simp only [hload] at hres
  split at hres
  · simp at hres
  rename_i w1 hmk
  split at hres
  · simp at hres
  rename_i w2 hcp
  split at hres
  · simp at hres
  rename_i w3 hsv
  simp only [Prod.mk.injEq, Except.ok.injEq] at hres
  obtain ⟨hd, hw3⟩ := saveHistory_true s _ w3 _ _ hsv
  obtain ⟨he, hw⟩ := hres
  refine ⟨content, fmode, w1, w2, hnode, hmk, hcp, by simpa using hd, he.symm, ?_⟩
  rw [← hw, hw3, ← he]

/-- Different ids give different snapshot paths within one bucket. -/
theorem snapshotPath_inj (s : Store) (key id id' : String)
    (h : snapshotPath s key id = snapshotPath s key id') : id = id' := by
  unfold snapshotPath at h
  have h1 := congrArg String.data h
  simp only [String.data_append] at h1
  have h2 := List.append_cancel_right h1
  have h3 := List.append_cancel_left h2
  exact String.ext h3

/-- `copyFile` with everything in place: a readable source file, the parent
directory present, an existing destination file other than the source that the
process may write. -/
theorem copyFile_ok (lib : Lib) (w : World) (src dst : String) (mode : Nat)
    (content : Bytes) (ms : Nat) (old : Bytes) (m0 : Nat)
    (hr : w.denyRead src = false) (hs : w.nodes src = some (Node.file content ms))
    (hd : w.nodes (lib.dir dst) = some Node.dir) (hw : w.denyWrite dst = false)
    (hne : src ≠ dst) (hdst : w.nodes dst = some (Node.file old m0))
    (hperm : w.superuser = true ∨ ownerWritable m0 = true) :
    copyFile lib w src dst mode = (true, w.setNode dst (Node.file content m0)) := by
  have hp : (w.superuser || ownerWritable m0) = true := by
    rcases hperm with h | h <;> simp [h]
  simp [copyFile, hr, hs, mkdirAll_dir _ _ hd, openTrunc, hw, hdst,
    setNode_nodes_ne _ _ _ _ hne, setNode_setNode, hp]

/-- A successful `copyFile` keeps every node other than the destination. -/
theorem copyFile_keep (lib : Lib) (w w' : World) (src dst : String) (mode : Nat)
    (h : copyFile lib w src dst mode = (true, w')) (p : String) (n : Node)
    (hp : w.nodes p = some n) (hne : p ≠ dst) : w'.nodes p = some n := by
  obtain ⟨w1, c, m, hmk, _, _, _, _, _, rfl⟩ := copyFile_true lib w _ src dst mode h
  obtain ⟨_, _, _, _, _, _, _, _, hkeep, _⟩ := mkdirAll_frame w w1 _ hmk
  rw [setNode_nodes_ne _ _ _ _ hne]
  exact hkeep p n hp

/-- A successful `copyFile` keeps every directory. -/
theorem copyFile_keep_dir (lib : Lib) (w w' : World) (src dst : String) (mode : Nat)
    (h : copyFile lib w src dst mode = (true, w')) (p : String)
    (hp : w.nodes p = some Node.dir) : w'.nodes p = some Node.dir := by
  by_cases hne : p = dst
  · subst hne
    obtain ⟨w1, c, m, hmk, _, _, _, hdst, _, _⟩ := copyFile_true lib w _ src p mode h
    obtain ⟨_, _, _, _, _, _, _, _, hkeep, _⟩ := mkdirAll_frame w w1 _ hmk
    have := hkeep p _ hp
    rcases hdst with ⟨h1, _⟩ | ⟨old, h1, _⟩ <;> rw [this] at h1 <;> cases h1
  · exact copyFile_keep lib w w' src dst mode h p _ hp hne

theorem userWrite_index (w : World) (p : String) (c : Bytes) : (userWrite w p c).index = w.index := by
  unfold userWrite
  split <;> rfl

theorem userWrite_denyRead (w : World) (p : String) (c : Bytes) :
    (userWrite w p c).denyRead = w.denyRead := by
  unfold userWrite
  split <;> rfl

theorem userWrite_denyWrite (w : World) (p : String) (c : Bytes) :
    (userWrite w p c).denyWrite = w.denyWrite := by
  unfold userWrite
  split <;> rfl

theorem userWrite_nodes_ne (w : World) (p q : String) (c : Bytes) (h : q ≠ p) :
    (userWrite w p c).nodes q = w.nodes q := by
  unfold userWrite
  split
  · rfl
  · exact setNode_nodes_ne _ _ _ _ h
  · exact setNode_nodes_ne _ _ _ _ h

/-- After the edit a regular file at the path holds the content written. -/
theorem userWrite_file (w : World) (p : String) (c c0 : Bytes) (m0 : Nat)
    (h : (userWrite w p c).nodes p = some (Node.file c0 m0)) : c0 = c := by
  unfold userWrite at h
  split at h
  · rename_i hd
    rw [hd] at h
    cases h
  · simp at h
    exact h.1.symm
  · simp at h
    exact h.1.symm

theorem userWrite_keep_dir (w : World) (p q : String) (c : Bytes)
    (h : w.nodes q = some Node.dir) : (userWrite w p c).nodes q = some Node.dir := by
  by_cases hq : q = p
  · subst hq
    simp only [userWrite, h]
  · rw [userWrite_nodes_ne _ _ _ _ hq, h]

theorem loadHistory_congr (lib : Lib) (s : Store) (w w' : World) (p : String)
    (h : w'.index = w.index) :
    Store.loadHistory lib s w' p = Store.loadHistory lib s w p := by
  simp only [Store.loadHistory, h]

/-- One round of the scenario: the edit followed by a successful `Backup`. -/
theorem backup_step (lib : Lib) (s : Store) (w w' : World) (path a : String) (content : Bytes)
    (history : List Entry) (e : Entry)
    (habs : lib.abs path = some a)
    (hload : Store.loadHistory lib s w (lib.clean a) =
      Except.ok (history, sourceKey lib (lib.clean a)))
    (halias : ∀ id, snapshotPath s (sourceKey lib (lib.clean a)) id ≠ lib.clean a)
    (hres : Store.Backup lib s (userWrite w (lib.clean a) content) path = (Except.ok e, w')) :
    w'.index (indexPath s (sourceKey lib (lib.clean a))) = IndexFile.entries (history ++ [e]) ∧
    e.SnapshotPath = snapshotPath s (sourceKey lib (lib.clean a)) e.ID ∧
    (∃ m, w'.nodes e.SnapshotPath = some (Node.file content m)) ∧
    (∃ c0 m0, w'.nodes (lib.clean a) = some (Node.file c0 m0)) ∧
    w'.denyRead = w.denyRead ∧ w'.denyWrite = w.denyWrite ∧
    w'.denyWrite (indexPath s (sourceKey lib (lib.clean a))) = false ∧
    (∀ p, w.nodes p = some Node.dir → w'.nodes p = some Node.dir) ∧
    (∀ p n, w.nodes p = some n → p ≠ lib.clean a → p ≠ e.SnapshotPath → w'.nodes p = some n) := by
  have hload' : Store.loadHistory lib s (userWrite w (lib.clean a) content) (lib.clean a) =
      Except.ok (history, sourceKey lib (lib.clean a)) := by
    rw [loadHistory_congr lib s w _ _ (userWrite_index _ _ _), hload]
  obtain ⟨c1, fmode, w1, w2, hnode, hmk, hcp, hdw, he, hw'⟩ :=
    Backup_ok_inv lib s _ w' path a history e habs hload' hres
  have hc1 : c1 = content := userWrite_file _ _ _ _ _ hnode
  subst hc1
  obtain ⟨_, hm2, hm3, _, _, _, _, _, hmkeep, _⟩ := mkdirAll_frame _ w1 _ hmk
  obtain ⟨_, hc2, hc3, _⟩ := copyFile_frame lib w1 w2 _ _ _ hcp
  have hsnap : e.SnapshotPath = snapshotPath s (sourceKey lib (lib.clean a)) e.ID := by rw [he]
  have hne : e.SnapshotPath ≠ lib.clean a := by
    rw [hsnap]
    exact halias _
  have hw1r : w1.nodes (lib.clean a) = some (Node.file c1 fmode) :=
    hmkeep _ _ (by rw [advance_nodes]; exact hnode)
  have hn' : w'.nodes = w2.nodes := by rw [hw']; rfl
  have hsnap2 : e.SnapshotPath =
      snapshotPath s (sourceKey lib (lib.clean a))
        (fmtInt ((userWrite w (lib.clean a) c1).clock (userWrite w (lib.clean a) c1).tick)) := by
    rw [he]
  refine ⟨by rw [hw']; exact setIndex_index_same _ _ _, hsnap, ?_, ?_, ?_, ?_, ?_, ?_, ?_⟩
  · obtain ⟨c, m, ms, hdst, _, hbefore, _, _⟩ := copyFile_content lib w1 w2 _ _ _ hcp
    have h1 := hbefore (by rw [← hsnap2]; exact Ne.symm hne)
    rw [hw1r] at h1
    simp only [Option.some.injEq, Node.file.injEq] at h1
    exact ⟨m, by rw [hn', hsnap2, hdst, h1.1]⟩
  · exact ⟨c1, fmode, by
      rw [hn']
      exact copyFile_keep lib w1 w2 _ _ _ hcp _ _ hw1r (by rw [← hsnap2]; exact Ne.symm hne)⟩
  · rw [hw', setIndex_denyRead, advance_denyRead, hc2, hm2, advance_denyRead, userWrite_denyRead]
  · rw [hw', setIndex_denyWrite, advance_denyWrite, hc3, hm3, advance_denyWrite,
      userWrite_denyWrite]
  · rw [hw', setIndex_denyWrite, advance_denyWrite]
    exact hdw
  · intro p hp
    rw [hn']
    exact copyFile_keep_dir lib w1 w2 _ _ _ hcp p
      (hmkeep p _ (by rw [advance_nodes]; exact userWrite_keep_dir _ _ _ _ hp))
  · intro p n hp hpr hps
    rw [hn']
    refine copyFile_keep lib w1 w2 _ _ _ hcp p n (hmkeep p n ?_) (by rw [← hsnap2]; exact hps)
    rw [advance_nodes, userWrite_nodes_ne _ _ _ _ hpr, hp]

/-- The state after the backups of the scenario: the history has grown by the
returned entries, each new snapshot file holds the content backed up at its
round, and nothing else that matters has moved. -/
theorem backupAll_spec (lib : Lib) (s : Store) (path a : String)
    (habs : lib.abs path = some a)
    (halias : ∀ id, snapshotPath s (sourceKey lib (lib.clean a)) id ≠ lib.clean a) :
    ∀ (cs : List Bytes) (w : World) (history es : List Entry) (w1 : World),
      Store.loadHistory lib s w (lib.clean a) =
        Except.ok (history, sourceKey lib (lib.clean a)) →
      backupAll lib s path w cs = some (es, w1) →
      (es.map Entry.ID).Nodup →
      Store.loadHistory lib s w1 (lib.clean a) =
        Except.ok (history ++ es, sourceKey lib (lib.clean a)) ∧
      List.Forall₂ (fun e content => ∃ m, w1.nodes e.SnapshotPath = some (Node.file content m))
        es cs ∧
      (∀ e ∈ es, e.SnapshotPath = snapshotPath s (sourceKey lib (lib.clean a)) e.ID) ∧
      ((∃ c0 m0, w.nodes (lib.clean a) = some (Node.file c0 m0)) →
        ∃ c0 m0, w1.nodes (lib.clean a) = some (Node.file c0 m0)) ∧
      (cs ≠ [] → (∃ c0 m0, w1.nodes (lib.clean a) = some (Node.file c0 m0)) ∧
        w1.denyWrite (indexPath s (sourceKey lib (lib.clean a))) = false) ∧
      w1.denyRead = w.denyRead ∧ w1.denyWrite = w.denyWrite ∧
      (∀ p, w.nodes p = some Node.dir → w1.nodes p = some Node.dir) ∧
      (∀ p n, w.nodes p = some n → p ≠ lib.clean a → (∀ e ∈ es, p ≠ e.SnapshotPath) →
        w1.nodes p = some n) := by
  intro cs
  induction cs with
  | nil =>
    intro w history es w1 hload hback _
    simp only [backupAll, Option.some.injEq, Prod.mk.injEq] at hback
    obtain ⟨rfl, rfl⟩ := hback
    refine ⟨by simpa using hload, List.Forall₂.nil, fun e he => absurd he (List.not_mem_nil e), fun h => h,
      fun h => absurd rfl h, rfl, rfl, fun _ h => h, fun _ _ h _ _ => h⟩
  | cons c rest ih =>
    intro w history es w1 hload hback hnd
    simp only [backupAll, habs] at hback
    split at hback
    swap
    · cases hback
    rename_i e w' hbk
    split at hback
    swap
    · cases hback
    rename_i es' w2 hrest
    simp only [Option.some.injEq, Prod.mk.injEq] at hback
    obtain ⟨rfl, rfl⟩ := hback
    obtain ⟨s1, s2, ⟨m, s3⟩, s4, s5, s6, s7, s8, s9⟩ :=
      backup_step lib s w w' path a c history e habs hload halias hbk
    have hload' := loadHistory_entries lib s w' _ _ s1
    simp only [List.map_cons, List.nodup_cons] at hnd
    obtain ⟨i1, i2, i3, i4, _, i6, i7, i8, i9⟩ := ih w' (history ++ [e]) es' w2 hload' hrest hnd.2
    have hne : e.SnapshotPath ≠ lib.clean a := by
      rw [s2]
      exact halias _
    have hfresh : ∀ e' ∈ es', e.SnapshotPath ≠ e'.SnapshotPath := by
      intro e' he' heq
      rw [s2, i3 e' he'] at heq
      have := snapshotPath_inj s _ _ _ heq
      exact hnd.1 (by rw [this]; exact List.mem_map_of_mem _ he')
    refine ⟨by simpa using i1, ?_, ?_, fun _ => i4 s4, fun _ => ⟨i4 s4, by rw [i7]; exact s7⟩,
      by rw [i6, s5], by rw [i7, s6], fun p hp => i8 p (s8 p hp), ?_⟩
    · exact List.Forall₂.cons ⟨m, i9 _ _ s3 hne hfresh⟩ i2
    · intro e' he'
      rcases List.mem_cons.mp he' with rfl | h
      · exact s2
      · exact i3 e' h
    · intro p n hp hpr hpe
      exact i9 p n (s9 p n hp hpr (hpe e (List.mem_cons_self _ _))) hpr
        (fun e' he' => hpe e' (List.mem_cons_of_mem _ he'))

/-- `Restore(path, 0, pop)` on a history whose last entry is `e`, with everything
in place: it returns `e`, writes the content of the snapshot of `e` to the file
and, when popping, persists the history without `e`. -/
theorem restore_top (lib : Lib) (s : Store) (w : World) (path a : String) (pop : Bool)
    (hs : List Entry) (e : Entry) (content : Bytes) (ms : Nat) (old : Bytes) (m0 : Nat)
    (habs : lib.abs path = some a)
    (hidx : w.index (indexPath s (sourceKey lib (lib.clean a))) = IndexFile.entries (hs ++ [e]))
    (hsn : w.nodes e.SnapshotPath = some (Node.file content ms))
    (hne : e.SnapshotPath ≠ lib.clean a)
    (hr : w.denyRead e.SnapshotPath = false)
    (hw : w.denyWrite (lib.clean a) = false)
    (hd : w.nodes (lib.dir (lib.clean a)) = some Node.dir)
    (hdst : w.nodes (lib.clean a) = some (Node.file old m0))
    (hperm : w.superuser = true ∨ ownerWritable m0 = true)
    (hwi : pop = true → w.denyWrite (indexPath s (sourceKey lib (lib.clean a))) = false) :
    Store.Restore lib s w path 0 pop =
      (Except.ok e,
        if pop then ((w.setNode (lib.clean a) (Node.file content m0)).setIndex
          (indexPath s (sourceKey lib (lib.clean a))) hs)
        else w.setNode (lib.clean a) (Node.file content m0)) := by
  have hunf := Restore_unfold lib s w path a pop (hs ++ [e]) hs.length e habs hidx (by simp)
  have hk : (((hs ++ [e]).length : Nat) : Int) - 1 - (hs.length : Nat) = 0 := by
    rw [List.length_append]
    simp
  rw [hk] at hunf
  rw [hunf, copyFile_ok lib w _ _ _ content ms old m0 hr hsn hd hw hne hdst hperm]
  cases pop
  · simp
  · have hwi' : (w.setNode (lib.clean a) (Node.file content m0)).denyWrite
        (indexPath s (sourceKey lib (lib.clean a))) = false := by
      rw [setNode_denyWrite]
      exact hwi rfl
    simp [saveHistory_writable s _ _ _ hwi']

/-- A non-empty history was read from an index file. -/
theorem loadHistory_nonempty (lib : Lib) (s : Store) (w : World) (p : String)
    (history : List Entry) (key : String)
    (h : Store.loadHistory lib s w p = Except.ok (history, key)) (hne : history ≠ []) :
    w.index (indexPath s (sourceKey lib p)) = IndexFile.entries history := by
  simp only [Store.loadHistory] at h
  cases hi : w.index (indexPath s (sourceKey lib p)) with
  | absent =>
    rw [hi] at h
    simp only [Except.ok.injEq, Prod.mk.injEq] at h
    exact absurd h.1.symm hne
  | unreadable =>
    rw [hi] at h
    cases h
  | corrupt =>
    rw [hi] at h
    cases h
  | entries h1 =>
    rw [hi] at h
    simp only [Except.ok.injEq, Prod.mk.injEq] at h
    rw [h.1]

/-- Popping the new entries one by one, latest first. -/
theorem popAll_spec (lib : Lib) (s : Store) (path a : String) (habs : lib.abs path = some a) :
    ∀ (res : List Entry) (rcs : List Bytes) (w : World) (h0 : List Entry),
      List.Forall₂ (fun e content =>
        (e.SnapshotPath ≠ lib.clean a ∧ w.denyRead e.SnapshotPath = false) ∧
          ∃ m, w.nodes e.SnapshotPath = some (Node.file content m)) res rcs →
      Store.loadHistory lib s w (lib.clean a) =
        Except.ok (h0 ++ res.reverse, sourceKey lib (lib.clean a)) →
      w.denyWrite (lib.clean a) = false →
      w.denyWrite (indexPath s (sourceKey lib (lib.clean a))) = false →
      w.nodes (lib.dir (lib.clean a)) = some Node.dir →
      (∃ c0 m0, w.nodes (lib.clean a) = some (Node.file c0 m0) ∧
        (w.superuser = true ∨ ownerWritable m0 = true)) →
      ∃ w2, popAll lib s path res.length w = some (popExpected h0.length rcs, w2) ∧
        Store.loadHistory lib s w2 (lib.clean a) =
          Except.ok (h0, sourceKey lib (lib.clean a)) := by
  intro res
  induction res with
  | nil =>
    intro rcs w h0 hf hidx _ _ _ _
    cases hf
    exact ⟨w, rfl, by simpa using hidx⟩
  | cons e res' ih =>
    intro rcs w h0 hf hidx hw hwi hd hfile
    cases hf with
    | cons hhead htail =>
      rename_i c rcs'
      obtain ⟨⟨hne, hr⟩, ms, hsn⟩ := hhead
      obtain ⟨old, m0, hdst, hperm⟩ := hfile
      have hidx' : w.index (indexPath s (sourceKey lib (lib.clean a))) =
          IndexFile.entries ((h0 ++ res'.reverse) ++ [e]) := by
        rw [List.reverse_cons, ← List.append_assoc] at hidx
        exact loadHistory_nonempty lib s w _ _ _ hidx (by simp)
      have hres := restore_top lib s w path a true (h0 ++ res'.reverse) e c ms old m0 habs hidx'
        hsn hne hr hw hd hdst hperm (fun _ => hwi)
      simp only [if_true] at hres
      have hlen : res'.length = rcs'.length := htail.length_eq
      have hnr : lib.dir (lib.clean a) ≠ lib.clean a := by
        intro heq
        rw [heq, hdst] at hd
        cases hd
      obtain ⟨w2, hpop, hfin⟩ := ih rcs'
        ((w.setNode (lib.clean a) (Node.file c m0)).setIndex
          (indexPath s (sourceKey lib (lib.clean a))) (h0 ++ res'.reverse)) h0
        (htail.imp (fun e' c' he' => by
          obtain ⟨⟨h1, h2⟩, m, h3⟩ := he'
          refine ⟨⟨h1, by simpa using h2⟩, m, ?_⟩
          rw [setIndex_nodes, setNode_nodes_ne _ _ _ _ h1]
          exact h3))
        (loadHistory_entries lib s _ _ _ (setIndex_index_same _ _ _))
        (by simpa using hw) (by simpa using hwi)
        (by rw [setIndex_nodes, setNode_nodes_ne _ _ _ _ hnr]; exact hd)
        ⟨c, m0, by simp, by simpa using hperm⟩
      refine ⟨w2, ?_, hfin⟩
      rw [hlen] at hpop
      simp only [List.length_cons, popAll, habs, hres, setIndex_nodes, setNode_nodes_same,
        loadHistory_entries lib s _ _ _ (setIndex_index_same _ _ _), hpop, popExpected,
        List.length_append, List.length_reverse, hlen]

theorem exStore_no_alias (key id : String) : snapshotPath exStore key id ≠ "/home/f" := by
  intro h
  have h1 := congrArg String.data h
  simp [snapshotPath, snapshotDir, exStore, String.data_append] at h1

/-! ## The contract -/

/-! ### C1 -/

/-- C1. For a history of length `N >= 1` and any integer index `k`,
`historyPosFromLatestIndex` succeeds exactly when `0 <= k <= N-1` and then returns
`N-1-k`; a negative `k` and a `k` above `N-1` give an index error, which `Restore`
returns leaving the world untouched. For a valid `k`, `Restore` succeeds exactly
when the copy of the snapshot of the entry at position `N-1-k` succeeds (and the
index file can be written when popping), it returns that entry, and the restored
file then holds the bytes of that entry's snapshot. -/
theorem C1_index_addressing (history : List Entry) (k : Int) (hN : 1 ≤ history.length) :
    ((∃ pos, historyPosFromLatestIndex history k = Except.ok pos) ↔
        (0 ≤ k ∧ k ≤ (history.length : Int) - 1)) ∧
    (0 ≤ k → k ≤ (history.length : Int) - 1 →
        historyPosFromLatestIndex history k = Except.ok ((history.length : Int) - 1 - k)) ∧
    (k < 0 → historyPosFromLatestIndex history k = Except.error Err.indexNegative) ∧
    ((history.length : Int) - 1 < k → historyPosFromLatestIndex history k =
        Except.error (Err.indexOutOfRange k ((history.length : Int) - 1))) ∧
    ∀ (lib : Lib) (s : Store) (w : World) (path a : String) (pop : Bool),
      lib.abs path = some a →
      w.index (indexPath s (sourceKey lib (lib.clean a))) = IndexFile.entries history →
      ((k < 0 ∨ (history.length : Int) - 1 < k) →
        ∃ err, historyPosFromLatestIndex history k = Except.error err ∧
          Store.Restore lib s w path k pop = (Except.error err, w)) ∧
      (0 ≤ k → k ≤ (history.length : Int) - 1 →
        ∃ e, history[((history.length : Int) - 1 - k).toNat]? = some e ∧
          ((∃ w', Store.Restore lib s w path k pop = (Except.ok e, w')) ↔
            ∃ w1, copyFile lib w e.SnapshotPath (lib.clean a)
                (if e.Mode = 0 then 0o644 else e.Mode) = (true, w1) ∧
              (pop = true → w1.denyWrite (indexPath s (sourceKey lib (lib.clean a))) = false)) ∧
          ∀ e' w', Store.Restore lib s w path k pop = (Except.ok e', w') →
            e' = e ∧ ∃ c m ms, w'.nodes (lib.clean a) = some (Node.file c m) ∧
              w'.nodes e.SnapshotPath = some (Node.file c ms) ∧
              (e.SnapshotPath ≠ lib.clean a → w.nodes e.SnapshotPath = some (Node.file c ms))) := by
  refine ⟨⟨?_, ?_⟩, fun h0 h1 => historyPos_ok history k h0 h1, historyPos_neg history k,
    fun h => historyPos_big history k h hN, ?_⟩
  · rintro ⟨pos, hpos⟩
    by_contra hcon
    rcases lt_or_le k 0 with hk | hk
    · rw [historyPos_neg history k hk] at hpos
      cases hpos
    · have hk2 : (history.length : Int) - 1 < k := by
        by_contra h2
        exact hcon ⟨hk, by omega⟩
      rw [historyPos_big history k hk2 hN] at hpos
      cases hpos
  · rintro ⟨h0, h1⟩
    exact ⟨_, historyPos_ok history k h0 h1⟩
  · intro lib s w path a pop habs hidx
    refine ⟨?_, ?_⟩
    · rintro (hk | hk)
      · exact ⟨_, historyPos_neg history k hk,
          Restore_out_of_range lib s w path a pop history k _ habs hidx hN
            (historyPos_neg history k hk)⟩
      · exact ⟨_, historyPos_big history k hk hN,
          Restore_out_of_range lib s w path a pop history k _ habs hidx hN
            (historyPos_big history k hk hN)⟩
    · intro h0 h1
      obtain ⟨e, he, hk⟩ := pos_entry history k h0 h1
      refine ⟨e, he, ⟨?_, ?_⟩, ?_⟩
      · rintro ⟨w', hres⟩
        rw [hk] at hres
        obtain ⟨_, w1, hcp, hcase⟩ := Restore_ok_inv lib s w w' path a pop history _ e e habs hidx he hres
        refine ⟨w1, hcp, fun hp => ?_⟩
        rcases hcase with ⟨hf, _⟩ | ⟨_, hd, _⟩
        · rw [hf] at hp
          cases hp
        · exact hd
      · rintro ⟨w1, hcp, hd⟩
        rw [hk, Restore_unfold lib s w path a pop history _ e habs hidx he, hcp]
        cases pop
        · exact ⟨w1, rfl⟩
        · simp only [if_true, saveHistory_writable s w1 _ _ (hd rfl)]
          exact ⟨_, rfl⟩
      · intro e' w' hres
        rw [hk] at hres
        obtain ⟨hee, w1, hcp, hcase⟩ :=
          Restore_ok_inv lib s w w' path a pop history _ e e' habs hidx he hres
        refine ⟨hee, ?_⟩
        obtain ⟨c, m, ms, hdst, hsrc, hbefore, _, _⟩ := copyFile_content lib w w1 _ _ _ hcp
        have hn : w'.nodes = w1.nodes := by
          rcases hcase with ⟨_, rfl⟩ | ⟨_, _, rfl⟩ <;> rfl
        exact ⟨c, m, ms, by rw [hn, hdst], by rw [hn, hsrc], hbefore⟩

/-- C1 at the fixture: index 2 into three entries is position 0, and index 3 is
out of range for `Restore`, which leaves the world alone. -/
theorem C1_index_addressing_witness :
    1 ≤ exHistory.length ∧
    historyPosFromLatestIndex exHistory 2 = Except.ok ((exHistory.length : Int) - 1 - 2) ∧
    Store.Restore exLib exStore exWorld "/home/f" 3 true =
      (Except.error (Err.indexOutOfRange 3 ((exHistory.length : Int) - 1)), exWorld) := by
  have h2 := C1_index_addressing exHistory 2 (by decide)
  have h3 := C1_index_addressing exHistory 3 (by decide)
  refine ⟨by decide, h2.2.1 (by decide) (by decide), ?_⟩
  obtain ⟨err, e1, e2⟩ :=
    (h3.2.2.2.2 exLib exStore exWorld "/home/f" "/home/f" true rfl (by decide)).1
      (Or.inr (by decide))
  rw [h3.2.2.2.1 (by decide)] at e1
  injection e1 with e1
  rw [← e1] at e2
  exact e2

/-! ### C2 -/

/-- C2 as stated fails: under a clock whose reading does not change between two
backups, both backups take the id `0` and share one snapshot file; the two
backups of `[1]` then `[2]` succeed, and the two pops leave `[2]` and again `[2]`
in the file, not `[2]` then `[1]`. -/
theorem C2_lifo_counterexample :
    (backupAll exLib exStore "/home/f" exWorldCoarse [[1], [2]]).map
        (fun r => r.1.map Entry.ID) = some ["0", "0"] ∧
    (backupAll exLib exStore "/home/f" exWorldCoarse [[1], [2]]).bind
        (fun r => (popAll exLib exStore "/home/f" 2 r.2).map (fun t => t.1)) =
      some [([2], 1), ([2], 0)] ∧
    popExpected 0 [[2], [1]] = [([2], 1), ([1], 0)] :=
  ⟨by decide, by decide, by decide⟩

/-- C2, amended. If the same file is backed up `N` times in sequence with content
`Ci` at the `i`-th backup, and the ids the `N` backups took from the clock are
pairwise distinct (the snapshot files of the bucket being readable files other
than the source, the source being writable by the process when the restores
start, and its directory in place), then `Restore` with index 0 succeeds and
restores `CN`, and `N` repeated calls of `Restore(index=0, pop=true)` succeed and
leave the file with contents `CN, ..., C1` in that order, each call shrinking the
history by exactly one entry, down to the history there was before the backups. -/
theorem C2_lifo (lib : Lib) (s : Store) (w0 w1 : World) (path a : String)
    (cs : List Bytes) (h0 es : List Entry)
    (habs : lib.abs path = some a)
    (hload : Store.loadHistory lib s w0 (lib.clean a) =
      Except.ok (h0, sourceKey lib (lib.clean a)))
    (hback : backupAll lib s path w0 cs = some (es, w1))
    (hids : (es.map Entry.ID).Nodup)
    (halias : ∀ id, snapshotPath s (sourceKey lib (lib.clean a)) id ≠ lib.clean a)
    (hread : ∀ id, w0.denyRead (snapshotPath s (sourceKey lib (lib.clean a)) id) = false)
    (hwrite : w0.denyWrite (lib.clean a) = false)
    (hperm : w1.superuser = true ∨
      ∀ old m, w1.nodes (lib.clean a) = some (Node.file old m) → ownerWritable m = true)
    (hparent : w0.nodes (lib.dir (lib.clean a)) = some Node.dir) :
    es.length = cs.length ∧
    Store.loadHistory lib s w1 (lib.clean a) =
      Except.ok (h0 ++ es, sourceKey lib (lib.clean a)) ∧
    (∀ (pop : Bool) (older : List Bytes) (latest : Bytes), cs = older ++ [latest] →
      ∃ e w', Store.Restore lib s w1 path 0 pop = (Except.ok e, w') ∧ es.getLast? = some e ∧
        ∃ m, w'.nodes (lib.clean a) = some (Node.file latest m)) ∧
    ∃ w2, popAll lib s path cs.length w1 = some (popExpected h0.length cs.reverse, w2) ∧
      Store.loadHistory lib s w2 (lib.clean a) = Except.ok (h0, sourceKey lib (lib.clean a)) := by
  obtain ⟨i1, i2, i3, _, i5, i6, i7, i8, _⟩ :=
    backupAll_spec lib s path a habs halias cs w0 h0 es w1 hload hback hids
  have hsafe : ∀ e ∈ es, e.SnapshotPath ≠ lib.clean a ∧ w1.denyRead e.SnapshotPath = false := by
    intro e he
    rw [i3 e he, i6]
    exact ⟨halias _, hread _⟩
  have hf : List.Forall₂ (fun e content =>
      (e.SnapshotPath ≠ lib.clean a ∧ w1.denyRead e.SnapshotPath = false) ∧
        ∃ m, w1.nodes e.SnapshotPath = some (Node.file content m)) es cs :=
    (List.forall₂_and_left es cs).mpr ⟨hsafe, i2⟩
  have hw1 : w1.denyWrite (lib.clean a) = false := by rw [i7]; exact hwrite
  have hd1 : w1.nodes (lib.dir (lib.clean a)) = some Node.dir := i8 _ hparent
  refine ⟨i2.length_eq, i1, ?_, ?_⟩
  · intro pop older latest hcs
    have hne : cs ≠ [] := by rw [hcs]; simp
    obtain ⟨⟨old, m0, hfile⟩, hwi⟩ := i5 hne
    have hfr := List.forall₂_reverse_iff.mpr hf
    rw [hcs, List.reverse_append, List.reverse_singleton, List.singleton_append] at hfr
    cases hres : es.reverse with
    | nil =>
      rw [hres] at hfr
      cases hfr
    | cons e res' =>
      rw [hres] at hfr
      cases hfr with
      | cons hhead _ =>
        obtain ⟨⟨hne', hr⟩, ms, hsn⟩ := hhead
        have hes : es = res'.reverse ++ [e] := by
          have := congrArg List.reverse hres
          simpa using this
        have hidx : w1.index (indexPath s (sourceKey lib (lib.clean a))) =
            IndexFile.entries ((h0 ++ res'.reverse) ++ [e]) := by
          rw [hes, ← List.append_assoc] at i1
          exact loadHistory_nonempty lib s w1 _ _ _ i1 (by simp)
        have hrt := restore_top lib s w1 path a pop (h0 ++ res'.reverse) e latest ms old m0 habs
          hidx hsn hne' hr hw1 hd1 hfile (hperm.imp id (fun h => h old m0 hfile)) (fun _ => hwi)
        refine ⟨e, _, hrt, by rw [hes]; simp, m0, ?_⟩
        cases pop <;> simp
  · by_cases hne : cs = []
    · subst hne
      cases i2
      exact ⟨w1, rfl, by simpa using i1⟩
    · obtain ⟨⟨old, m0, hfile⟩, hwi⟩ := i5 hne
      have hfr := List.forall₂_reverse_iff.mpr hf
      obtain ⟨w2, hpop, hfin⟩ := popAll_spec lib s path a habs es.reverse cs.reverse w1 h0 hfr
        (by rw [List.reverse_reverse]; exact i1) hw1 hwi hd1
        ⟨old, m0, hfile, hperm.imp id (fun h => h old m0 hfile)⟩
      rw [List.length_reverse, i2.length_eq] at hpop
      exact ⟨w2, hpop, hfin⟩

/-- C2 at the fixture: three backups of `[1]`, `[2]`, `[3]` under a clock that
advances at every reading take the ids 1, 3, 5, and three pops leave `[3]`,
`[2]`, `[1]` with 2, 1, 0 entries left. -/
theorem C2_lifo_witness :
    (backupAll exLib exStore "/home/f" exWorld0 [[1], [2], [3]]).map
        (fun r => r.1.map Entry.ID) = some ["1", "3", "5"] ∧
    (backupAll exLib exStore "/home/f" exWorld0 [[1], [2], [3]]).bind
        (fun r => (popAll exLib exStore "/home/f" 3 r.2).map (fun t => t.1)) =
      some [([3], 2), ([2], 1), ([1], 0)] := by
  have hids : (backupAll exLib exStore "/home/f" exWorld0 [[1], [2], [3]]).map
      (fun r => r.1.map Entry.ID) = some ["1", "3", "5"] := by decide
  refine ⟨hids, ?_⟩
  cases hb : backupAll exLib exStore "/home/f" exWorld0 [[1], [2], [3]] with
  | none =>
    rw [hb] at hids
    cases hids
  | some r =>
    obtain ⟨es, w1⟩ := r
    rw [hb] at hids
    simp only [Option.map_some', Option.some.injEq] at hids
    have hfile : (backupAll exLib exStore "/home/f" exWorld0 [[1], [2], [3]]).map
        (fun r => r.2.nodes "/home/f") = some (some (Node.file [3] 0o644)) := by decide
    rw [hb] at hfile
    simp only [Option.map_some', Option.some.injEq] at hfile
    have hperm : ∀ old m, w1.nodes "/home/f" = some (Node.file old m) →
        ownerWritable m = true := by
      intro old m hn
      rw [hfile] at hn
      simp only [Option.some.injEq, Node.file.injEq] at hn
      rw [← hn.2]
      decide
    obtain ⟨_, _, _, w2, hpop, _⟩ := C2_lifo exLib exStore exWorld0 w1 "/home/f" "/home/f"
      [[1], [2], [3]] [] es rfl (by rfl) hb (by rw [hids]; decide)
      (fun id => exStore_no_alias _ id) (fun _ => rfl) rfl (Or.inr hperm) (by decide)
    show (popAll exLib exStore "/home/f" 3 w1).map (fun t => t.1) = _
    rw [show ([[1], [2], [3]] : List Bytes).length = 3 from rfl] at hpop
    rw [hpop]
    rfl

/-! ### C3 -/

/-- C3. A successful `Restore(path, k, pop=true)` on a history `h` of length
`N >= 1` with `0 <= k <= N-1` persists `h` with the single element at position
`p = N-1-k` removed: the new history has length `N-1`, its first `p` entries are
those of `h`, the rest are `h[p+1..]` in the same order, and the entry returned is
the old `h[p]`. -/
theorem C3_pop_removes_position (lib : Lib) (s : Store) (w w' : World) (path a : String)
    (history : List Entry) (k : Int) (e : Entry)
    (habs : lib.abs path = some a)
    (hidx : w.index (indexPath s (sourceKey lib (lib.clean a))) = IndexFile.entries history)
    (hN : 1 ≤ history.length) (hk0 : 0 ≤ k) (hk1 : k ≤ (history.length : Int) - 1)
    (hres : Store.Restore lib s w path k true = (Except.ok e, w')) :
    ∃ new, w'.index (indexPath s (sourceKey lib (lib.clean a))) = IndexFile.entries new ∧
      new.length = history.length - 1 ∧
      new.take ((history.length : Int) - 1 - k).toNat =
        history.take ((history.length : Int) - 1 - k).toNat ∧
      new.drop ((history.length : Int) - 1 - k).toNat =
        history.drop (((history.length : Int) - 1 - k).toNat + 1) ∧
      new = history.eraseIdx ((history.length : Int) - 1 - k).toNat ∧
      history[((history.length : Int) - 1 - k).toNat]? = some e := by
  obtain ⟨e0, he, hk⟩ := pos_entry history k hk0 hk1
  rw [hk] at hres
  obtain ⟨hee, w1, _, hcase⟩ := Restore_ok_inv lib s w w' path a true history _ e0 e habs hidx he hres
  have hp : ((history.length : Int) - 1 - k).toNat < history.length := by omega
  rcases hcase with ⟨hf, _⟩ | ⟨_, _, rfl⟩
  · cases hf
  · refine ⟨_, setIndex_index_same _ _ _, ?_, ?_, ?_, ?_, by rw [hee, he]⟩
    · rw [List.length_append, List.length_take, List.length_drop]
      omega
    · rw [List.take_append_eq_append_take, List.take_take, List.length_take]
      simp [Nat.min_eq_left (Nat.le_of_lt hp)]
    · rw [List.drop_append_eq_append_drop, List.length_take]
      simp [Nat.min_eq_left (Nat.le_of_lt hp), List.drop_take]
    · rw [List.eraseIdx_eq_take_drop_succ]

/-- C3 at the fixture: restoring index 1 of three entries with pop removes the
middle entry and keeps the other two in order. -/
theorem C3_pop_removes_position_witness :
    Store.Restore exLib exStore exWorld "/home/f" 1 true =
      (Except.ok (exEntry 3), (Store.Restore exLib exStore exWorld "/home/f" 1 true).2) ∧
    (Store.Restore exLib exStore exWorld "/home/f" 1 true).2.index (indexPath exStore exKey) =
      IndexFile.entries [exEntry 1, exEntry 5] := by
  have hres : Store.Restore exLib exStore exWorld "/home/f" 1 true =
      (Except.ok (exEntry 3), (Store.Restore exLib exStore exWorld "/home/f" 1 true).2) :=
    Prod.ext (by rfl) rfl
  obtain ⟨new, h1, _, _, _, h5, _⟩ := C3_pop_removes_position exLib exStore exWorld _ "/home/f"
    "/home/f" exHistory 1 (exEntry 3) rfl (by decide) (by decide) (by decide) (by decide) hres
  refine ⟨hres, ?_⟩
  rw [h5] at h1
  exact h1

/-! ### C4 -/

/-- C4. After a successful `Backup(path)` of a path whose history is `h`, the
persisted history is `h` with the returned entry appended at the end; the entry
carries the resolved path, the size and the mode of the source file and an id
read from the clock; and the file at its snapshot path holds the source file's
bytes (the snapshot path being another path than the source itself). -/
theorem C4_backup_appends (lib : Lib) (s : Store) (w w' : World) (path a : String)
    (history : List Entry) (e : Entry)
    (habs : lib.abs path = some a)
    (hload : Store.loadHistory lib s w (lib.clean a) =
      Except.ok (history, sourceKey lib (lib.clean a)))
    (hres : Store.Backup lib s w path = (Except.ok e, w')) :
    w'.index (indexPath s (sourceKey lib (lib.clean a))) = IndexFile.entries (history ++ [e]) ∧
    Store.loadHistory lib s w' (lib.clean a) =
      Except.ok (history ++ [e], sourceKey lib (lib.clean a)) ∧
    (history ++ [e]).length = history.length + 1 ∧
    (history ++ [e]).take history.length = history ∧
    (history ++ [e])[history.length]? = some e ∧
    e.SourcePath = lib.clean a ∧
    e.ID = fmtInt (w.clock w.tick) ∧
    e.SnapshotPath = snapshotPath s (sourceKey lib (lib.clean a)) e.ID ∧
    ∃ content fmode, w.nodes (lib.clean a) = some (Node.file content fmode) ∧
      e.SizeBytes = (content.length : Int) ∧ e.Mode = fmode ∧
      (e.SnapshotPath ≠ lib.clean a →
        ∃ ms, w'.nodes e.SnapshotPath = some (Node.file content ms)) := by
  obtain ⟨content, fmode, w1, w2, hnode, hmk, hcp, _, he, hw'⟩ :=
    Backup_ok_inv lib s w w' path a history e habs hload hres
  have hidx : w'.index (indexPath s (sourceKey lib (lib.clean a))) =
      IndexFile.entries (history ++ [e]) := by
    rw [hw']
    exact setIndex_index_same _ _ _
  refine ⟨hidx, loadHistory_entries lib s w' _ _ hidx, by simp, by simp, by simp,
    by rw [he], by rw [he], by rw [he], content, fmode, hnode, by rw [he], by rw [he], ?_⟩
  intro hne
  obtain ⟨c, m, ms, hdst, _, hbefore, _, _⟩ := copyFile_content lib w1 w2 _ _ _ hcp
  have hsnap : e.SnapshotPath =
      snapshotPath s (sourceKey lib (lib.clean a)) (fmtInt (w.clock w.tick)) := by rw [he]
  rw [hsnap] at hne
  have h1 := hbefore (Ne.symm hne)
  obtain ⟨_, _, _, _, _, _, _, _, hkeep, _⟩ := mkdirAll_frame _ w1 _ hmk
  have h2 := hkeep (lib.clean a) _ (by rw [advance_nodes]; exact hnode)
  rw [h1] at h2
  simp only [Option.some.injEq, Node.file.injEq] at h2
  refine ⟨m, ?_⟩
  rw [hw', hsnap, setIndex_nodes, advance_nodes, hdst, h2.1]

/-- C4 at the fixture: the first backup of `/home/f`. -/
theorem C4_backup_appends_witness :
    (Store.Backup exLib exStore exWorld0 "/home/f").1 = Except.ok (exEntry 1) ∧
    (Store.Backup exLib exStore exWorld0 "/home/f").2.index (indexPath exStore exKey) =
      IndexFile.entries [exEntry 1] ∧
    ∃ ms, (Store.Backup exLib exStore exWorld0 "/home/f").2.nodes (exEntry 1).SnapshotPath =
      some (Node.file [118, 49, 10] ms) := by
  have hres : Store.Backup exLib exStore exWorld0 "/home/f" =
      (Except.ok (exEntry 1), (Store.Backup exLib exStore exWorld0 "/home/f").2) :=
    Prod.ext (by rfl) rfl
  have h := C4_backup_appends exLib exStore exWorld0 _ "/home/f" "/home/f" [] (exEntry 1) rfl
    (by rfl) hres
  obtain ⟨h1, _, _, _, _, _, _, _, content, fmode, hn, _, _, hsnap⟩ := h
  have hc : content = [118, 49, 10] := by
    have : exWorld0.nodes "/home/f" = some (Node.file [118, 49, 10] 0o644) := by decide
    rw [show exLib.clean "/home/f" = "/home/f" from rfl, this] at hn
    simp only [Option.some.injEq, Node.file.injEq] at hn
    exact hn.1.symm
  rw [hc] at hsnap
  exact ⟨by rfl, h1, hsnap (by decide)⟩

/-! ### C5 -/

/-- C5. For a path with a non-empty history `h` of length `N`, `List` returns the
reverse of `h` (element `k` is `h[N-1-k]`) and leaves the world as it was; the
entry a successful `Restore(path, k, _)` returns is the one `List` shows at
index `k`. -/
theorem C5_list_latest_first (lib : Lib) (s : Store) (w : World) (path a : String)
    (history : List Entry)
    (habs : lib.abs path = some a)
    (hidx : w.index (indexPath s (sourceKey lib (lib.clean a))) = IndexFile.entries history)
    (hN : 1 ≤ history.length) :
    Store.List lib s w path = (Except.ok history.reverse, w) ∧
    history.reverse.length = history.length ∧
    (∀ k : Nat, k < history.length → history.reverse[k]? = history[history.length - 1 - k]?) ∧
    (∀ (k : Int) (pop : Bool) (e : Entry) (w' : World),
      Store.Restore lib s w path k pop = (Except.ok e, w') →
        0 ≤ k ∧ history.reverse[k.toNat]? = some e) := by
  refine ⟨List_entries lib s w path a history habs hidx hN, List.length_reverse history,
    fun k hk => reverse_getElem? history k hk, ?_⟩
  intro k pop e w' hres
  obtain ⟨hk0, hk1⟩ := Restore_ok_range lib s w w' path a pop history k e habs hidx hres
  obtain ⟨e0, he, hk⟩ := pos_entry history k hk0 hk1
  have hres2 := hres
  rw [hk] at hres2
  obtain ⟨hee, _⟩ := Restore_ok_inv lib s w w' path a pop history _ e0 e habs hidx he hres2
  refine ⟨hk0, ?_⟩
  have hlt : k.toNat < history.length := by omega
  rw [reverse_getElem? history _ hlt, hee, ← he]
  congr 1
  omega

/-- C5 at the fixture: the listing is the three entries, latest first. -/
theorem C5_list_latest_first_witness :
    (Store.List exLib exStore exWorld "/home/f").1 =
      Except.ok [exEntry 5, exEntry 3, exEntry 1] := by
  have h := (C5_list_latest_first exLib exStore exWorld "/home/f" "/home/f" exHistory rfl
    (by decide) (by decide)).1
  rw [h]
  rfl

/-! ### C6 -/

/-- C6. For a path whose bucket has no index file, or an index file holding an
empty history, `List`, `Restore` with any index and any `pop`, and
`DiffWorkingVsLatest` each return `ErrNoBackups` and leave the world as it was. -/
theorem C6_empty_history (lib : Lib) (s : Store) (w : World) (path a : String)
    (habs : lib.abs path = some a)
    (hidx : w.index (indexPath s (sourceKey lib (lib.clean a))) = IndexFile.absent ∨
      w.index (indexPath s (sourceKey lib (lib.clean a))) = IndexFile.entries []) :
    Store.List lib s w path = (Except.error Err.noBackups, w) ∧
    (∀ (index : Int) (pop : Bool),
      Store.Restore lib s w path index pop = (Except.error Err.noBackups, w)) ∧
    Store.DiffWorkingVsLatest lib s w path = (Except.error Err.noBackups, w) := by
  have hload : Store.loadHistory lib s w (lib.clean a) =
      Except.ok ([], sourceKey lib (lib.clean a)) := by
    rcases hidx with h | h <;> simp only [Store.loadHistory, h]
  refine ⟨?_, ?_, ?_⟩
  · simp only [Store.List, habs, hload, List.length_nil, if_true]
  · intro index pop
    simp only [Store.Restore, habs, hload, List.length_nil, if_true]
  · simp only [Store.DiffWorkingVsLatest, habs, hload, List.length_nil, if_true]

/-- C6 at the fixture: nothing has been backed up in `exWorld0`. -/
theorem C6_empty_history_witness :
    Store.Restore exLib exStore exWorld0 "/home/f" (-3) true = (Except.error Err.noBackups, exWorld0) ∧
    Store.List exLib exStore exWorld0 "/home/f" = (Except.error Err.noBackups, exWorld0) :=
  have h := C6_empty_history exLib exStore exWorld0 "/home/f" "/home/f" rfl (Or.inl rfl)
  ⟨h.2.1 (-3) true, h.1⟩

/-! ### C7 -/

/-- C7 as stated fails: the read-only file `/home/f` is missing and its entry
records mode `0o444`. The first `Restore(path, 0, pop=false)` succeeds and creates
the file with mode `0o444`; the history is untouched; the second
`Restore(path, 0, pop=false)` cannot open the file for writing and returns the
restore error instead of the entry. -/
theorem C7_second_restore_counterexample :
    (Store.Restore exLib exStore exWorldReadOnly "/home/f" 0 false).1 =
      Except.ok exEntryReadOnly ∧
    (Store.Restore exLib exStore exWorldReadOnly "/home/f" 0 false).2.nodes "/home/f" =
      some (Node.file [118, 51, 10] 0o444) ∧
    (Store.Restore exLib exStore exWorldReadOnly "/home/f" 0 false).2.index
      (indexPath exStore exKey) = IndexFile.entries [exEntryReadOnly] ∧
    (Store.Restore exLib exStore
      (Store.Restore exLib exStore exWorldReadOnly "/home/f" 0 false).2 "/home/f" 0 false).1 =
      Except.error Err.restoreFile :=
  ⟨by rfl, by decide, by decide, by rfl⟩

/-- C7, amended. A successful `Restore(path, i, pop=false)` at a valid index `i` of
a non-empty history `h` leaves every index file as it was, so the history is still
`h` and a second `Restore(path, i, pop=false)` selects the same entry. The
restored path is then a regular file: when the process may write it (its mode has
the owner-write bit, or the process is the superuser) the second call succeeds,
returns the same entry and leaves the same world, so the same content; when it
may not, the second call returns the restore error and changes nothing. -/
theorem C7_keep_leaves_history (lib : Lib) (s : Store) (w w' : World) (path a : String)
    (history : List Entry) (i : Int) (e : Entry)
    (habs : lib.abs path = some a)
    (hidx : w.index (indexPath s (sourceKey lib (lib.clean a))) = IndexFile.entries history)
    (hi0 : 0 ≤ i) (hi1 : i ≤ (history.length : Int) - 1)
    (hres : Store.Restore lib s w path i false = (Except.ok e, w')) :
    w'.index = w.index ∧
    w'.index (indexPath s (sourceKey lib (lib.clean a))) = IndexFile.entries history ∧
    ∃ content m, w'.nodes (lib.clean a) = some (Node.file content m) ∧
      ((w'.superuser = true ∨ ownerWritable m = true) →
        Store.Restore lib s w' path i false = (Except.ok e, w')) ∧
      (w'.superuser = false → ownerWritable m = false →
        Store.Restore lib s w' path i false = (Except.error Err.restoreFile, w')) := by
  obtain ⟨e0, he, hk⟩ := pos_entry history i hi0 hi1
  have hres2 := hres
  rw [hk] at hres2
  obtain ⟨hee, w1, hcp, hcase⟩ :=
    Restore_ok_inv lib s w w' path a false history _ e0 e habs hidx he hres2
  rcases hcase with ⟨_, rfl⟩ | ⟨hf, _⟩
  swap
  · cases hf
  obtain ⟨hi, _⟩ := copyFile_frame lib w w' _ _ _ hcp
  have hidx' : w'.index (indexPath s (sourceKey lib (lib.clean a))) = IndexFile.entries history := by
    rw [hi, hidx]
  obtain ⟨content, m, hnode, hok, hdenied⟩ := copyFile_again lib w w' _ _ _ hcp
  refine ⟨hi, hidx', content, m, hnode, ?_, ?_⟩
  · intro hp
    rw [hk, Restore_unfold lib s w' path a false history _ e0 habs hidx' he, hok hp, hee]
    rfl
  · intro hsu how
    rw [hk, Restore_unfold lib s w' path a false history _ e0 habs hidx' he, hdenied hsu how]

/-- C7 at the fixture: restoring index 2 twice without pop onto the existing file
of mode `0o600`. -/
theorem C7_keep_leaves_history_witness :
    Store.Restore exLib exStore exWorld "/home/f" 2 false =
      (Except.ok (exEntry 1), (Store.Restore exLib exStore exWorld "/home/f" 2 false).2) ∧
    (Store.Restore exLib exStore exWorld "/home/f" 2 false).2.nodes "/home/f" =
      some (Node.file [118, 49, 10] 0o600) ∧
    Store.Restore exLib exStore (Store.Restore exLib exStore exWorld "/home/f" 2 false).2
      "/home/f" 2 false =
      (Except.ok (exEntry 1), (Store.Restore exLib exStore exWorld "/home/f" 2 false).2) := by
  have hres : Store.Restore exLib exStore exWorld "/home/f" 2 false =
      (Except.ok (exEntry 1), (Store.Restore exLib exStore exWorld "/home/f" 2 false).2) :=
    Prod.ext (by rfl) rfl
  have hnode : (Store.Restore exLib exStore exWorld "/home/f" 2 false).2.nodes "/home/f" =
      some (Node.file [118, 49, 10] 0o600) := by decide
  obtain ⟨_, _, content, m, hn, hok, _⟩ := C7_keep_leaves_history exLib exStore exWorld _
    "/home/f" "/home/f" exHistory 2 (exEntry 1) rfl (by decide) (by decide) (by decide) hres
  refine ⟨hres, hnode, hok (Or.inr ?_)⟩
  have hm : some (Node.file content m) = some (Node.file [118, 49, 10] 0o600) := hn.symm.trans hnode
  simp only [Option.some.injEq, Node.file.injEq] at hm
  rw [hm.2]
  decide

/-! ### C8 -/

/-- C8 as stated fails: `/A` and `/a` are distinct paths with the same bucket key
under every digest, so also under an injective one. -/
theorem C8_distinct_paths_counterexample :
    "/A" ≠ "/a" ∧ (∀ lib : Lib, sourceKey lib "/A" = sourceKey lib "/a") ∧
    ¬ (∀ lib : Lib, (∀ s, ∀ b ∈ lib.sum256 s, b < 256) → Function.Injective lib.sum256 →
        ∀ p q : String, p ≠ q → sourceKey lib p ≠ sourceKey lib q) :=
  ⟨by decide, fun _ => rfl, fun h =>
    h exLib (fun s => exDigestChars_bytes s.data) exLib_sum256_inj "/A" "/a" (by decide) rfl⟩

/-- C8, amended. `sourceKey p` is the hex encoding of the digest of the lower-cased
path; paths with the same lower-cased form have the same key, hence the same
index file and snapshot directory; and, taking the digest as injective, paths
whose lower-cased forms differ have different keys. -/
theorem C8_bucket_key (lib : Lib) (hbytes : ∀ s, ∀ b ∈ lib.sum256 s, b < 256)
    (hinj : Function.Injective lib.sum256) (p q : String) :
    sourceKey lib p = String.mk (hexEncode (lib.sum256 (ToLower lib p))) ∧
    (ToLower lib p = ToLower lib q →
      sourceKey lib p = sourceKey lib q ∧
      ∀ s : Store, indexPath s (sourceKey lib p) = indexPath s (sourceKey lib q) ∧
        snapshotDir s (sourceKey lib p) = snapshotDir s (sourceKey lib q)) ∧
    (ToLower lib p ≠ ToLower lib q → sourceKey lib p ≠ sourceKey lib q) := by
  refine ⟨rfl, ?_, ?_⟩
  · intro h
    have hk := (sourceKey_eq_iff lib hbytes hinj p q).mpr h
    exact ⟨hk, fun s => by rw [hk]; exact ⟨rfl, rfl⟩⟩
  · intro h hk
    exact h ((sourceKey_eq_iff lib hbytes hinj p q).mp hk)

/-- C8 at the fixture: `/home/F` and `/home/f` share a bucket, `/home/f` and
`/home/g` do not. -/
theorem C8_bucket_key_witness :
    (∀ s, ∀ b ∈ exLib.sum256 s, b < 256) ∧ Function.Injective exLib.sum256 ∧
    sourceKey exLib "/home/F" = sourceKey exLib "/home/f" ∧
    sourceKey exLib "/home/f" ≠ sourceKey exLib "/home/g" :=
  ⟨fun s => exDigestChars_bytes s.data, exLib_sum256_inj,
    ((C8_bucket_key exLib (fun s => exDigestChars_bytes s.data) exLib_sum256_inj
      "/home/F" "/home/f").2.1 (by decide)).1,
    (C8_bucket_key exLib (fun s => exDigestChars_bytes s.data) exLib_sum256_inj
      "/home/f" "/home/g").2.2 (by decide)⟩

/-! ### C9 -/

/-- C9, the code at the failing input. The file `/home/f` exists with mode `0o600`
and the latest entry records mode `0o644`: `Restore` succeeds, puts the snapshot's
bytes in place, and the file still has mode `0o600`. When the file is missing and
the entry records `0o666` under umask `0o022`, the restored file has mode
`0o644`. -/
theorem C9_restore_mode_at_failing_input :
    (Store.Restore exLib exStore exWorld "/home/f" 0 false).1 = Except.ok (exEntry 5) ∧
    (exEntry 5).Mode = 0o644 ∧
    exWorld.nodes "/home/f" = some (Node.file [111, 111, 112, 115, 10] 0o600) ∧
    exWorld.nodes (exEntry 5).SnapshotPath = some (Node.file [118, 51, 10] 0o644) ∧
    (Store.Restore exLib exStore exWorld "/home/f" 0 false).2.nodes "/home/f" =
      some (Node.file [118, 51, 10] 0o600) ∧
    (Store.Restore exLib exStore
      { exWorld with
        nodes := fun p => if p = "/home/f" then none else exWorld.nodes p
        index := fun _ => IndexFile.entries [{ exEntry 5 with Mode := 0o666 }] }
      "/home/f" 0 false).2.nodes "/home/f" = some (Node.file [118, 51, 10] 0o644) :=
  ⟨by rfl, by decide, by decide, by decide, by decide, by decide⟩

/-! ### C10 -/

/-- C10. For a path with a non-empty history, `DiffWorkingVsLatest` looks at the
working file and the snapshot of the last stored entry (position `N-1`). If a NUL
byte occurs within the first 8000 bytes of the working file, or else of that
snapshot, it returns the fixed notice and runs no external diff. A file that
cannot be opened or read, and a file with no NUL byte before offset 8000, is
treated as not binary; then the external diff is run once on (snapshot, working
file): exit code 0 gives "no changes", exit code 1 the output verbatim, anything
else an error. -/
theorem C10_diff_working_vs_latest (lib : Lib) (s : Store) (w : World) (path a : String)
    (history : List Entry) (latest : Entry)
    (habs : lib.abs path = some a)
    (hidx : w.index (indexPath s (sourceKey lib (lib.clean a))) = IndexFile.entries history)
    (hlast : history[history.length - 1]? = some latest) :
    (NulInFirstChunk w (lib.clean a) →
      Store.DiffWorkingVsLatest lib s w path = (Except.ok binaryFileNotice, w)) ∧
    (¬ NulInFirstChunk w (lib.clean a) → NulInFirstChunk w latest.SnapshotPath →
      Store.DiffWorkingVsLatest lib s w path = (Except.ok binarySnapshotNotice, w)) ∧
    (∀ p, (w.denyRead p = true ∨ w.nodes p = none ∨ w.nodes p = some Node.dir) →
      isBinaryFile w p = none ∧ ¬ NulInFirstChunk w p) ∧
    (∀ p bs m, w.denyRead p = false → w.nodes p = some (Node.file bs m) →
      (∀ i : Nat, bs[i]? = some 0 → 8000 ≤ i) →
      isBinaryFile w p = some false ∧ ¬ NulInFirstChunk w p) ∧
    (¬ NulInFirstChunk w (lib.clean a) → ¬ NulInFirstChunk w latest.SnapshotPath →
      (∀ out, lib.execDiff w latest.SnapshotPath (lib.clean a) = ExecOutcome.exited 0 out →
        Store.DiffWorkingVsLatest lib s w path = (Except.ok "no changes",
          { w with execs := w.execs ++ [(latest.SnapshotPath, lib.clean a)] })) ∧
      (∀ out, lib.execDiff w latest.SnapshotPath (lib.clean a) = ExecOutcome.exited 1 out →
        Store.DiffWorkingVsLatest lib s w path = (Except.ok out,
          { w with execs := w.execs ++ [(latest.SnapshotPath, lib.clean a)] })) ∧
      (∀ code out, lib.execDiff w latest.SnapshotPath (lib.clean a) = ExecOutcome.exited code out →
        code ≠ 0 → code ≠ 1 →
        Store.DiffWorkingVsLatest lib s w path = (Except.error Err.runDiff,
          { w with execs := w.execs ++ [(latest.SnapshotPath, lib.clean a)] })) ∧
      (lib.execDiff w latest.SnapshotPath (lib.clean a) = ExecOutcome.failed →
        Store.DiffWorkingVsLatest lib s w path = (Except.error Err.runDiff,
          { w with execs := w.execs ++ [(latest.SnapshotPath, lib.clean a)] }))) := by
  have hN : 1 ≤ history.length := by
    rcases Nat.lt_or_ge 0 history.length with h | h
    · exact h
    · rw [List.getElem?_eq_none (by omega)] at hlast
      cases hlast
  have hlen : ¬ history.length = 0 := by omega
  have hunf : Store.DiffWorkingVsLatest lib s w path =
      if isBinaryFile w (lib.clean a) = some true then (Except.ok binaryFileNotice, w)
      else if isBinaryFile w latest.SnapshotPath = some true then
        (Except.ok binarySnapshotNotice, w)
      else
        match lib.execDiff w latest.SnapshotPath (lib.clean a) with
        | ExecOutcome.exited 0 _ => (Except.ok "no changes",
            { w with execs := w.execs ++ [(latest.SnapshotPath, lib.clean a)] })
        | ExecOutcome.exited 1 output => (Except.ok output,
            { w with execs := w.execs ++ [(latest.SnapshotPath, lib.clean a)] })
        | _ => (Except.error Err.runDiff,
            { w with execs := w.execs ++ [(latest.SnapshotPath, lib.clean a)] }) := by
    simp only [Store.DiffWorkingVsLatest, habs, loadHistory_entries lib s w _ history hidx, hlen,
      if_false, sliceAt_last history hN, hlast]
  refine ⟨?_, ?_, ?_, ?_, ?_⟩
  · intro h1
    rw [hunf, if_pos ((isBinaryFile_true_iff w _).mpr h1)]
  · intro h1 h2
    rw [hunf, if_neg (fun h => h1 ((isBinaryFile_true_iff w _).mp h)),
      if_pos ((isBinaryFile_true_iff w _).mpr h2)]
  · intro p hp
    have hnone : isBinaryFile w p = none := by
      unfold isBinaryFile
      rcases hp with h | h | h
      · simp [h]
      · simp [h]
      · simp [h]
    refine ⟨hnone, fun h => ?_⟩
    rw [← isBinaryFile_true_iff, hnone] at h
    cases h
  · intro p c m hr hn hnul
    have hnot : ¬ NulInFirstChunk w p := by
      rintro ⟨_, c', m', i, hn', hlt, hi⟩
      rw [hn] at hn'
      simp only [Option.some.injEq, Node.file.injEq] at hn'
      rw [← hn'.1] at hi
      have := hnul i hi
      omega
    refine ⟨?_, hnot⟩
    have hsome : isBinaryFile w p = some (hasNul (c.take 8000)) := by
      simp [isBinaryFile, hr, hn]
    cases hb : hasNul (c.take 8000) with
    | false => rw [hsome, hb]
    | true =>
      rw [hb] at hsome
      exact absurd ((isBinaryFile_true_iff w p).mp hsome) hnot
  · intro h1 h2
    have e1 : ¬ isBinaryFile w (lib.clean a) = some true :=
      fun h => h1 ((isBinaryFile_true_iff w _).mp h)
    have e2 : ¬ isBinaryFile w latest.SnapshotPath = some true :=
      fun h => h2 ((isBinaryFile_true_iff w _).mp h)
    rw [hunf, if_neg e1, if_neg e2]
    refine ⟨?_, ?_, ?_, ?_⟩
    · intro out ho
      rw [ho]
      rfl
    · intro out ho
      rw [ho]
      rfl
    · intro code out ho h0 h1
      rw [ho]
      split
      · rename_i heq
        injection heq with hc _
        exact absurd hc h0
      · rename_i heq
        injection heq with hc _
        exact absurd hc h1
      · rfl
    · intro ho
      rw [ho]

/-- C10 at the fixture: the damaged text file differs from the latest snapshot, so
the diff output is returned; with a NUL byte in the working file the notice is
returned instead. -/
theorem C10_diff_working_vs_latest_witness :
    (Store.DiffWorkingVsLatest exLib exStore exWorld "/home/f").1 = Except.ok "files differ" ∧
    Store.DiffWorkingVsLatest exLib exStore (exWorld.setNode "/home/f" (Node.file [7, 0] 0o644))
      "/home/f" =
      (Except.ok binaryFileNotice, exWorld.setNode "/home/f" (Node.file [7, 0] 0o644)) := by
  have h := C10_diff_working_vs_latest exLib exStore exWorld "/home/f" "/home/f" exHistory
    (exEntry 5) rfl (by decide) (by decide)
  have hb := C10_diff_working_vs_latest exLib exStore
    (exWorld.setNode "/home/f" (Node.file [7, 0] 0o644)) "/home/f" "/home/f" exHistory
    (exEntry 5) rfl (by decide) (by decide)
  have n1 : ¬ NulInFirstChunk exWorld (exLib.clean "/home/f") :=
    fun hn => absurd ((isBinaryFile_true_iff _ _).mpr hn) (by decide)
  have n2 : ¬ NulInFirstChunk exWorld (exEntry 5).SnapshotPath :=
    fun hn => absurd ((isBinaryFile_true_iff _ _).mpr hn) (by decide)
  refine ⟨?_, hb.1 ⟨rfl, [7, 0], 0o644, 1, by decide, by decide, by decide⟩⟩
  rw [(h.2.2.2.2 n1 n2).2.1 "files differ" (by decide)]

end Bkptool
